import Mathlib

/-!
# Facial animation loader (`libdli/src/facial-animation-loader.cpp`)

A shallow embedding of `dli::LoadFacialAnimation` and the properties of the
animation definition it builds.

Conventions of the embedding

* `uint32_t` values are numbers below `2 ^ 32` (`Fin 4294967296`); every
  `uint32_t` computation of the source (`mNumberOfFrames - 1u`,
  `numberOfAnimatedProperties += ..`, `targets + morphTargetIndex`,
  `targets += ..`) is written on `Nat` with an explicit `% 4294967296`.
* `float` is IEEE 754 binary32 with round-to-nearest-even, every operation
  rounded to binary32 (`F32`, `roundQ`).
* `std::vector::operator[]` with an index outside the vector is undefined
  behaviour in C++.  The embedding follows the call up to the first such access
  and reports it (`Failure.outOfRange`): the result says that the call reaches
  this access, and says nothing about what a build of the program does from
  there on (it may crash, or go on with whatever lies in memory and return).
  An exception thrown through `ExceptionFlinger` is reported as
  `Failure.exception`.
-/

namespace dli

/-! ## binary32 arithmetic -/

/-- A binary32 value: `fin neg m e` is `(-1)^neg * m * 2^e`.  The values produced
by `roundQ` are canonical: `m < 2^24`, `-149 ≤ e ≤ 104`, and `2^23 ≤ m` unless
`e = -149` (zero and the subnormal numbers). -/
inductive F32 where
  | fin (neg : Bool) (m : Nat) (e : Int)
  | inf (neg : Bool)
  | nan
  deriving DecidableEq, Repr

/-- Binary logarithm by halving, with explicit fuel. -/
def log2Fuel : Nat → Nat → Nat
  | 0, _ => 0
  | fuel + 1, n => if 2 ≤ n then log2Fuel fuel (n / 2) + 1 else 0

/-- The position of the leading bit: `⌊log₂ n⌋` (and `0` for `n = 0`). -/
def ilog2 (n : Nat) : Nat := log2Fuel n n

/-- Numerator of `n / d * 2 ^ s` written as a quotient of naturals. -/
def scaledNum (n : Nat) (s : Int) : Nat := n * 2 ^ s.toNat

/-- Denominator of `n / d * 2 ^ s` written as a quotient of naturals. -/
def scaledDen (d : Nat) (s : Int) : Nat := d * 2 ^ (-s).toNat

/-- The shift `s` for which the integer part of `n / d * 2 ^ s` has exactly 24
bits (for `0 < n` and `0 < d`). -/
def normShift (n d : Nat) : Int :=
  let s0 : Int := 24 + (ilog2 d : Int) - (ilog2 n : Int)
  if 16777216 ≤ scaledNum n s0 / scaledDen d s0 then s0 - 1 else s0

/-- Round `(-1)^neg * (n / d) * 2^e` to a multiple of `2 ^ (e - s)`, to nearest,
ties to even: the quotient of `n * 2 ^ s` by `d` is the candidate significand, the
remainder decides the direction; a carry out of 24 bits moves the exponent up, and
an exponent above 104 is an overflow to infinity. -/
def roundAt (neg : Bool) (n d : Nat) (e s : Int) : F32 :=
  let N := scaledNum n s
  let D := scaledDen d s
  let q := N / D
  let r := N % D
  let m := if D < 2 * r ∨ (2 * r = D ∧ q % 2 = 1) then q + 1 else q
  let ex := e - s
  if m = 16777216 then
    (if 104 < ex + 1 then F32.inf neg else F32.fin neg 8388608 (ex + 1))
  else
    (if 104 < ex then F32.inf neg else F32.fin neg m ex)

/-- Round the real number `(-1)^neg * (n / d) * 2^e` (with `0 < d`) to binary32,
to nearest, ties to even.  The significand gets 24 bits, or the unit `2 ^ (-149)`
when the number is below the normal range. -/
def roundQ (neg : Bool) (n d : Nat) (e : Int) : F32 :=
  if n = 0 then F32.fin neg 0 (-149)
  else roundAt neg n d e (min (normShift n d) (e + 149))

namespace F32

/-- The value `+0.0f`. -/
def zero : F32 := fin false 0 (-149)

/-- The value `1.0f`. -/
def one : F32 := fin false 8388608 (-23)

/-- Conversion `static_cast<float>(uint32_t)`. -/
def ofUInt32 (t : Nat) : F32 := roundQ false t 1 0

/-- Product `a * b` of two `float`s. -/
def mul : F32 → F32 → F32
  | fin s m e, fin t k f => roundQ (xor s t) (m * k) 1 (e + f)
  | fin s m _, inf t => if m = 0 then nan else inf (xor s t)
  | inf s, fin t k _ => if k = 0 then nan else inf (xor s t)
  | inf s, inf t => inf (xor s t)
  | _, _ => nan

/-- Quotient `a / b` of two `float`s. -/
def div : F32 → F32 → F32
  | fin s m e, fin t k f =>
    if k = 0 then (if m = 0 then nan else inf (xor s t))
    else roundQ (xor s t) m k (e - f)
  | fin s _ _, inf t => fin (xor s t) 0 (-149)
  | inf s, fin t _ _ => inf (xor s t)
  | _, _ => nan

/-- A finite value strictly above zero. -/
def isPositive : F32 → Bool
  | fin false m _ => decide (0 < m)
  | _ => false

/-- The rational number a finite value stands for. -/
def toRat : F32 → Option ℚ
  | fin neg m e => some ((if neg then -1 else 1) * (m : ℚ) * (2 : ℚ) ^ e)
  | _ => none

end F32

/-- Source: `const float MILLISECONDS_TO_SECONDS = 0.001f;`, the binary32
number nearest to `1 / 1000`. -/
def MILLISECONDS_TO_SECONDS : F32 := roundQ false 1 1000 0

/-! ## Data model -/

/-- Values of the C++ type `uint32_t`. -/
abbrev uint32_t := Fin 4294967296

/-- Source: `struct BlendShape`. -/
structure BlendShape where
  mKeys : List (List F32)
  mNodeName : String
  mNumberOfMorphTarget : uint32_t
  mVersion : String
  mFullName : String
  mMorphNames : List String

/-- Source: `struct FacialAnimation`. -/
structure FacialAnimation where
  mName : String
  mBlendShapes : List BlendShape
  mVersion : String
  mNumberOfShapes : uint32_t
  mTime : List uint32_t
  mNumberOfFrames : uint32_t

/-- Modelled from the spec: `Dali::TimePeriod` is declared outside the analysed
sources; `Dali::TimePeriod(duration)` is a period of the given duration that
starts without delay. -/
structure TimePeriod where
  delaySeconds : F32
  durationSeconds : F32
  deriving DecidableEq, Repr

/-- Modelled from the spec: `AnimatedProperty` is declared in a header outside
the analysed sources.  The fields are the ones `LoadFacialAnimation` writes: the
node name, the property path, the key-frame track (`Dali::KeyFrames`, the ordered
`(progress, value)` pairs added to it) and the time period. -/
structure AnimatedProperty where
  mNodeName : String
  mPropertyName : String
  mKeyFrames : List (F32 × F32)
  mTimePeriod : TimePeriod
  deriving DecidableEq, Repr

/-- Modelled from the spec: `AnimationDefinition` is declared in a header outside
the analysed sources: a name, a duration in seconds and the animated properties. -/
structure AnimationDefinition where
  mName : String
  mDuration : F32
  mProperties : List AnimatedProperty
  deriving DecidableEq, Repr

/-- An element of `mProperties` after `resize` and `Dali::KeyFrames::New()`
(source lines 131-137): empty strings, an empty key-frame track, a zero time
period. -/
def AnimatedProperty.fresh : AnimatedProperty :=
  { mNodeName := "", mPropertyName := "", mKeyFrames := [],
    mTimePeriod := { delaySeconds := F32.zero, durationSeconds := F32.zero } }

/-- The vector element accesses `LoadFacialAnimation` performs. -/
inductive Access where
  | time (index : Nat)
  | properties (index : Nat)
  | keys (frame : Nat)
  | key (frame : Nat) (index : Nat)
  deriving DecidableEq, Repr

/-- The outcomes of `LoadFacialAnimation` other than a returned definition whose
content the source determines: an exception thrown through `ExceptionFlinger`, or
the first element access outside a vector (undefined behaviour in C++; from there
on the source determines nothing). -/
inductive Failure where
  | exception (message : String)
  | outOfRange (access : Access)
  deriving DecidableEq, Repr

/-! ## The loader -/

/-- Modelled from the spec: `BlendShapes::WEIGHTS_UNIFORM` is defined outside the
analysed sources; the spec gives the base identifier of the weight uniform as
`uWeight`. -/
def WEIGHTS_UNIFORM : String := "uWeight"

/-- What `sprintf` prints for `%d` when handed a `uint32_t`: the 32 bits read as
a signed `int`. -/
def formatD (v : Nat) : String :=
  if v < 2147483648 then Nat.repr v else "-" ++ Nat.repr (4294967296 - v)

/-- Content of `weightNameBuffer` after `sprintf(pWeightName, "[%d]", ..)`: the
uniform name written once in front (source line 141), then the bracketed index
(source line 152). -/
def weightName (morphTargetIndex : Nat) : String :=
  WEIGHTS_UNIFORM ++ "[" ++ formatD morphTargetIndex ++ "]"

/-- Source lines 126-130: the `uint32_t` sum of the morph-target counts. -/
def numberOfAnimatedProperties (blendShapes : List BlendShape) : Nat :=
  blendShapes.foldl (fun acc b => (acc + b.mNumberOfMorphTarget.val) % 4294967296) 0

/-- Source lines 148-153: the three assignments to the property reference:
time period, node name and property name. -/
def named (duration : F32) (b : BlendShape) (morphTargetIndex : Nat)
    (p : AnimatedProperty) : AnimatedProperty :=
  { p with
    mTimePeriod := { delaySeconds := F32.zero, durationSeconds := duration }
    mNodeName := b.mNodeName
    mPropertyName := weightName morphTargetIndex }

/-- Source line 169: `mKeyFrames.Add(progress, value)` appends one pair to the
key-frame track. -/
def withKey (progress value : F32) (p : AnimatedProperty) : AnimatedProperty :=
  { p with mKeyFrames := p.mKeyFrames ++ [(progress, value)] }

/-- Source lines 147-153: name the property at `targets + morphTargetIndex`. -/
def setWeightName (duration : F32) (b : BlendShape) (targets : Nat)
    (props : List AnimatedProperty) (morphTargetIndex : Nat) :
    Except Access (List AnimatedProperty) :=
  let i := (targets + morphTargetIndex) % 4294967296
  match props[i]? with
  | none => .error (.properties i)
  | some p => .ok (props.set i (named duration b morphTargetIndex p))

/-- Source lines 167-169: add one key frame to the property at
`targets + morphTargetIndex`. -/
def addKeyFrame (b : BlendShape) (timeIndex : Nat) (progress : F32) (targets : Nat)
    (props : List AnimatedProperty) (morphTargetIndex : Nat) :
    Except Access (List AnimatedProperty) :=
  let i := (targets + morphTargetIndex) % 4294967296
  match props[i]? with
  | none => .error (.properties i)
  | some p =>
    match b.mKeys[timeIndex]? with
    | none => .error (.keys timeIndex)
    | some row =>
      match row[morphTargetIndex]? with
      | none => .error (.key timeIndex morphTargetIndex)
      | some v => .ok (props.set i (withKey progress v p))

/-- Source lines 145-154: the loop over the morph targets of one blend shape in
the naming pass. -/
def nameBlendShape (duration : F32) (b : BlendShape) (targets : Nat)
    (props : List AnimatedProperty) : Except Access (List AnimatedProperty) :=
  (List.range b.mNumberOfMorphTarget.val).foldlM (setWeightName duration b targets) props

/-- Source line 123: the duration, `MILLISECONDS_TO_SECONDS *
static_cast<float>(time)` for the time `t` of the last frame. -/
def durationOf (t : uint32_t) : F32 :=
  F32.mul MILLISECONDS_TO_SECONDS (F32.ofUInt32 t.val)

/-- Source line 163: the progress of a frame, `MILLISECONDS_TO_SECONDS *
static_cast<float>(time) / mDuration`. -/
def progressOf (duration : F32) (t : uint32_t) : F32 :=
  F32.div (F32.mul MILLISECONDS_TO_SECONDS (F32.ofUInt32 t.val)) duration

/-- Source lines 163-170: one frame of one blend shape in the sampling pass. -/
def sampleFrame (fa : FacialAnimation) (duration : F32) (b : BlendShape) (targets : Nat)
    (props : List AnimatedProperty) (timeIndex : Nat) :
    Except Access (List AnimatedProperty) :=
  match fa.mTime[timeIndex]? with
  | none => .error (.time timeIndex)
  | some t =>
    (List.range b.mNumberOfMorphTarget.val).foldlM
      (addKeyFrame b timeIndex (progressOf duration t) targets) props

/-- Source lines 161-171: the loop over the frames for one blend shape. -/
def sampleBlendShape (fa : FacialAnimation) (duration : F32) (b : BlendShape)
    (targets : Nat) (props : List AnimatedProperty) :
    Except Access (List AnimatedProperty) :=
  (List.range fa.mNumberOfFrames.val).foldlM (sampleFrame fa duration b targets) props

/-- The loop `for (const auto& blendShape : ..) { body; targets += .. }` that the
source runs twice (lines 143-156 and 159-173), with the `uint32_t` counter
`targets`. -/
def forEachBlendShape
    (body : BlendShape → Nat → List AnimatedProperty → Except Access (List AnimatedProperty)) :
    List BlendShape → Nat → List AnimatedProperty → Except Access (List AnimatedProperty)
  | [], _, props => .ok props
  | b :: rest, targets, props =>
    match body b targets props with
    | .error a => .error a
    | .ok props1 =>
      forEachBlendShape body rest ((targets + b.mNumberOfMorphTarget.val) % 4294967296) props1

/-- Source line 123: the index `mNumberOfFrames - 1u` of the last frame time, in
`uint32_t` arithmetic. -/
def lastFrame (fa : FacialAnimation) : Nat :=
  (fa.mNumberOfFrames.val + 4294967295) % 4294967296

/-- Source lines 121-175: the construction of the animation definition from the
record `facialAnimation` that the JSON reader has filled in. -/
def flatten (fa : FacialAnimation) : Except Access AnimationDefinition :=
  match fa.mTime[lastFrame fa]? with
  | none => .error (.time (lastFrame fa))
  | some t =>
    let duration := durationOf t
    let props := List.replicate (numberOfAnimatedProperties fa.mBlendShapes) AnimatedProperty.fresh
    match forEachBlendShape (nameBlendShape duration) fa.mBlendShapes 0 props with
    | .error a => .error a
    | .ok namedProps =>
      match forEachBlendShape (sampleBlendShape fa duration) fa.mBlendShapes 0 namedProps with
      | .error a => .error a
      | .ok sampledProps =>
        .ok { mName := fa.mName, mDuration := duration, mProperties := sampledProps }

/-- Source: `AnimationDefinition LoadFacialAnimation(const std::string& url)`.
The collaborators outside the analysed sources are arguments: `failed` is the
flag `LoadTextFile` sets, `root` is what `json_parse` and
`FACIAL_ANIMATION_READER.Read` make of the text (`none` for a null root). -/
def LoadFacialAnimation (url : String) (failed : Bool) (root : Option FacialAnimation) :
    Except Failure AnimationDefinition :=
  if failed then .error (.exception ("Failed to load " ++ url ++ "."))
  else
    match root with
    | none => .error (.exception ("Failed to parse " ++ url ++ "."))
    | some fa =>
      match flatten fa with
      | .error a => .error (.outOfRange a)
      | .ok d => .ok d

/-! ## The result in closed form

The functions below describe, without loops over a mutable vector, what the two
passes leave in `mProperties`; the theorems relate them to the loader. -/

/-- The sum of the morph-target counts as a natural number (no wrap-around). -/
def morphTargetSum (blendShapes : List BlendShape) : Nat :=
  (blendShapes.map (fun b => b.mNumberOfMorphTarget.val)).sum

/-- The position in `mProperties` of morph target `m` of the blend shape with
index `j`: the morph-target counts of the blend shapes in front of it, plus `m`. -/
def flatIndex (blendShapes : List BlendShape) (j m : Nat) : Nat :=
  morphTargetSum (blendShapes.take j) + m

/-- Apply `g (i - t)` to the elements at the positions `t ≤ i < t + n`. -/
def rangeUpdate (g : Nat → AnimatedProperty → AnimatedProperty) (t n : Nat)
    (props : List AnimatedProperty) : List AnimatedProperty :=
  props.mapIdx (fun i p => if t ≤ i ∧ i < t + n then g (i - t) p else p)

/-- Apply `g b` to the block of each blend shape, the blocks laid out one after
the other from position `t`. -/
def updateShapes (g : BlendShape → Nat → AnimatedProperty → AnimatedProperty) :
    List BlendShape → Nat → List AnimatedProperty → List AnimatedProperty
  | [], _, props => props
  | b :: rest, t, props =>
    updateShapes g rest (t + b.mNumberOfMorphTarget.val)
      (rangeUpdate (g b) t b.mNumberOfMorphTarget.val props)

/-- The progress of frame `f` (`NaN` stands in when there is no such frame). -/
def progressAt (fa : FacialAnimation) (duration : F32) (f : Nat) : F32 :=
  match fa.mTime[f]? with
  | some t => progressOf duration t
  | none => F32.nan

/-- The weight `mKeys[f][m]` of a blend shape (`NaN` stands in when there is no
such entry). -/
def keyAt (b : BlendShape) (f m : Nat) : F32 :=
  match b.mKeys[f]? with
  | some row => (row[m]?).getD F32.nan
  | none => F32.nan

/-- The key frames of morph target `m` of blend shape `b`, frames `0 .. count - 1`. -/
def trackOf (fa : FacialAnimation) (duration : F32) (b : BlendShape) (m count : Nat) :
    List (F32 × F32) :=
  (List.range count).map (fun f => (progressAt fa duration f, keyAt b f m))

/-- Append the first `count` key frames of morph target `m` of `b` to a property. -/
def sampled (fa : FacialAnimation) (duration : F32) (count : Nat) (b : BlendShape) (m : Nat)
    (p : AnimatedProperty) : AnimatedProperty :=
  { p with mKeyFrames := p.mKeyFrames ++ trackOf fa duration b m count }

/-- The part of a blend shape that the loader reads. -/
def BlendShape.used (b : BlendShape) : List (List F32) × String × uint32_t :=
  (b.mKeys, b.mNodeName, b.mNumberOfMorphTarget)

/-- All rows that the sampling pass reads exist: `mKeys` has a row for each of the
`frames` frames and each row has an entry for each morph target. -/
def BlendShape.keysReadable (b : BlendShape) (frames : Nat) : Prop :=
  ∀ f, f < frames → ∃ row, b.mKeys[f]? = some row ∧ b.mNumberOfMorphTarget.val ≤ row.length

/-- What one blend shape needs for its sampling pass to stay inside the vectors:
a time for every frame, and a key for every frame and morph target. -/
def sampleable (fa : FacialAnimation) (b : BlendShape) (f : Nat) : Prop :=
  (∃ tm, fa.mTime[f]? = some tm) ∧
    ∀ m, m < b.mNumberOfMorphTarget.val → ∃ row v, b.mKeys[f]? = some row ∧ row[m]? = some v

/-- The property of morph target `m` of blend shape `b` in closed form: named by
the first pass, then given one key frame per frame by the second pass. -/
def expectedProperty (fa : FacialAnimation) (duration : F32) (b : BlendShape) (m : Nat) :
    AnimatedProperty :=
  sampled fa duration fa.mNumberOfFrames.val b m (named duration b m AnimatedProperty.fresh)

/-- The vector `mProperties` in closed form: the fresh elements, updated block by
block by the naming pass and then by the sampling pass. -/
def expectedProperties (fa : FacialAnimation) (duration : F32) : List AnimatedProperty :=
  updateShapes (sampled fa duration fa.mNumberOfFrames.val) fa.mBlendShapes 0
    (updateShapes (named duration) fa.mBlendShapes 0
      (List.replicate (morphTargetSum fa.mBlendShapes) AnimatedProperty.fresh))

/-- A valid raw facial animation in the sense of the spec: at least one frame,
one time per frame, and for every blend shape one row of keys per frame, each of
length `morphTargetCount`. -/
def FacialAnimation.Valid (fa : FacialAnimation) : Prop :=
  1 ≤ fa.mNumberOfFrames.val ∧ fa.mTime.length = fa.mNumberOfFrames.val ∧
  ∀ b ∈ fa.mBlendShapes, b.mKeys.length = fa.mNumberOfFrames.val ∧
    ∀ row ∈ b.mKeys, row.length = b.mNumberOfMorphTarget.val

/-! ## Scenarios -/

/-- The value `0.5f`. -/
def F32.half : F32 := F32.fin false 8388608 (-24)

/-- The blend shape of scenario A. -/
def faceShape : BlendShape :=
  { mKeys := [[F32.zero, F32.zero], [F32.one, F32.half]],
    mNodeName := "face", mNumberOfMorphTarget := 2,
    mVersion := "1", mFullName := "face_full", mMorphNames := ["a", "b"] }

/-- Scenario A of the spec: two frames at 0 ms and 500 ms, one blend shape `face`
with two morph targets. -/
def scenarioA : FacialAnimation :=
  { mName := "smile", mVersion := "1", mNumberOfShapes := 1,
    mNumberOfFrames := 2, mTime := [0, 500], mBlendShapes := [faceShape] }

/-- The animation definition the spec gives for scenario A. -/
def scenarioAResult : AnimationDefinition :=
  { mName := "smile", mDuration := F32.half,
    mProperties :=
      [{ mNodeName := "face", mPropertyName := "uWeight[0]",
         mKeyFrames := [(F32.zero, F32.zero), (F32.one, F32.one)],
         mTimePeriod := { delaySeconds := F32.zero, durationSeconds := F32.half } },
       { mNodeName := "face", mPropertyName := "uWeight[1]",
         mKeyFrames := [(F32.zero, F32.zero), (F32.one, F32.half)],
         mTimePeriod := { delaySeconds := F32.zero, durationSeconds := F32.half } }] }

/-- Scenario A with other morph names, versions, full name and shape count. -/
def scenarioARenamed : FacialAnimation :=
  { mName := "smile", mVersion := "2", mNumberOfShapes := 7,
    mNumberOfFrames := 2, mTime := [0, 500],
    mBlendShapes :=
      [{ mKeys := [[F32.zero, F32.zero], [F32.one, F32.half]],
         mNodeName := "face", mNumberOfMorphTarget := 2,
         mVersion := "3", mFullName := "other", mMorphNames := ["jawOpen"] }] }

/-- Scenario B of the spec: `frames` is 0 and there are no times. -/
def scenarioB : FacialAnimation :=
  { mName := "empty", mVersion := "1", mNumberOfShapes := 0,
    mNumberOfFrames := 0, mTime := [], mBlendShapes := [] }

/-- A document with `frames` 0 and a time array of `2 ^ 32` entries. -/
def zeroFramesLongTime : FacialAnimation :=
  { mName := "long", mVersion := "1", mNumberOfShapes := 0,
    mNumberOfFrames := 0, mTime := List.replicate 4294967296 500, mBlendShapes := [] }

/-- Scenario C of the spec: `morphtarget` is 3 and the only row of keys has two
entries. -/
def scenarioC : FacialAnimation :=
  { mName := "short", mVersion := "1", mNumberOfShapes := 1,
    mNumberOfFrames := 1, mTime := [500],
    mBlendShapes :=
      [{ mKeys := [[F32.zero, F32.one]],
         mNodeName := "face", mNumberOfMorphTarget := 3,
         mVersion := "1", mFullName := "face_full", mMorphNames := ["a", "b", "c"] }] }

/-- A valid animation whose only frame is at 0 ms. -/
def zeroDuration : FacialAnimation :=
  { mName := "still", mVersion := "1", mNumberOfShapes := 1,
    mNumberOfFrames := 1, mTime := [0],
    mBlendShapes :=
      [{ mKeys := [[F32.one]],
         mNodeName := "face", mNumberOfMorphTarget := 1,
         mVersion := "1", mFullName := "face_full", mMorphNames := ["a"] }] }

/-- What the loader returns for `zeroDuration`. -/
def zeroDurationResult : AnimationDefinition :=
  { mName := "still", mDuration := F32.zero,
    mProperties :=
      [{ mNodeName := "face", mPropertyName := "uWeight[0]",
         mKeyFrames := [(F32.nan, F32.one)],
         mTimePeriod := { delaySeconds := F32.zero, durationSeconds := F32.zero } }] }

/-- A valid animation whose only frame is at 5 ms. -/
def fiveMilliseconds : FacialAnimation :=
  { mName := "blink", mVersion := "1", mNumberOfShapes := 1,
    mNumberOfFrames := 1, mTime := [5],
    mBlendShapes :=
      [{ mKeys := [[F32.one]],
         mNodeName := "face", mNumberOfMorphTarget := 1,
         mVersion := "1", mFullName := "face_full", mMorphNames := ["a"] }] }

/-- What the loader returns for `fiveMilliseconds`. -/
def fiveMillisecondsResult : AnimationDefinition :=
  { mName := "blink", mDuration := F32.fin false 10737419 (-31),
    mProperties :=
      [{ mNodeName := "face", mPropertyName := "uWeight[0]",
         mKeyFrames := [(F32.one, F32.one)],
         mTimePeriod := { delaySeconds := F32.zero,
                          durationSeconds := F32.fin false 10737419 (-31) } }] }

/-- A blend shape with `2 ^ 31 + 1` morph targets and one row of keys. -/
def wideShape : BlendShape :=
  { mKeys := [List.replicate 2147483649 F32.zero],
    mNodeName := "face", mNumberOfMorphTarget := 2147483649,
    mVersion := "1", mFullName := "face_full", mMorphNames := [] }

/-- A valid animation of one frame whose blend shape has `2 ^ 31 + 1` morph
targets. -/
def manyMorphTargets : FacialAnimation :=
  { mName := "wide", mVersion := "1", mNumberOfShapes := 1,
    mNumberOfFrames := 1, mTime := [500], mBlendShapes := [wideShape] }

/-- Scenario D of the spec: two blend shapes with one and two morph targets. -/
def scenarioD : FacialAnimation :=
  { mName := "pair", mVersion := "1", mNumberOfShapes := 2,
    mNumberOfFrames := 1, mTime := [500],
    mBlendShapes :=
      [{ mKeys := [[F32.one]],
         mNodeName := "shape0", mNumberOfMorphTarget := 1,
         mVersion := "1", mFullName := "first", mMorphNames := ["a"] },
       { mKeys := [[F32.zero, F32.half]],
         mNodeName := "shape1", mNumberOfMorphTarget := 2,
         mVersion := "1", mFullName := "second", mMorphNames := ["b", "c"] }] }


/-! ## Facts about binary32 rounding -/

theorem log2Fuel_spec : ∀ (fuel n : Nat), n ≤ fuel → 0 < n →
    2 ^ log2Fuel fuel n ≤ n ∧ n < 2 ^ (log2Fuel fuel n + 1) := by
  intro fuel
  induction fuel with
  | zero => intro n h1 h2; omega
  | succ k ih =>
    intro n hle hpos
    unfold log2Fuel
    by_cases h2 : 2 ≤ n
    · rw [if_pos h2]
      have hrec := ih (n / 2) (by omega) (by omega)
      rw [Nat.pow_succ, Nat.pow_succ]
      constructor <;> omega
    · rw [if_neg h2]
      constructor <;> simp <;> omega

theorem ilog2_le (n : Nat) (h : 0 < n) : 2 ^ ilog2 n ≤ n :=
  (log2Fuel_spec n n (Nat.le_refl n) h).1

theorem lt_ilog2 (n : Nat) (h : 0 < n) : n < 2 ^ (ilog2 n + 1) :=
  (log2Fuel_spec n n (Nat.le_refl n) h).2

theorem ilog2_lt_of_lt (n k : Nat) (h : 0 < n) (hk : n < 2 ^ k) : ilog2 n < k := by
  have h1 := ilog2_le n h
  have h2 : 2 ^ ilog2 n < 2 ^ k := Nat.lt_of_le_of_lt h1 hk
  exact (Nat.pow_lt_pow_iff_right (by decide)).1 h2

theorem le_ilog2_of_le (n k : Nat) (h : 0 < n) (hk : 2 ^ k ≤ n) : k ≤ ilog2 n := by
  have h1 := lt_ilog2 n h
  have h2 : 2 ^ k < 2 ^ (ilog2 n + 1) := Nat.lt_of_le_of_lt hk h1
  have := (Nat.pow_lt_pow_iff_right (by decide)).1 h2
  omega

theorem scaled_pow_bounds (n d L M K a b : Nat)
    (hL1 : 2 ^ L ≤ n) (hL2 : n < 2 ^ (L + 1)) (hM1 : 2 ^ M ≤ d) (hM2 : d < 2 ^ (M + 1))
    (h : a + L = K + 1 + M + b) :
    2 ^ K * (d * 2 ^ b) ≤ n * 2 ^ a ∧ n * 2 ^ a < 2 ^ (K + 2) * (d * 2 ^ b) := by
  have hb : 0 < 2 ^ b := Nat.pow_pos (by decide)
  have ha : 0 < 2 ^ a := Nat.pow_pos (by decide)
  constructor
  · calc 2 ^ K * (d * 2 ^ b) ≤ 2 ^ K * (2 ^ (M + 1) * 2 ^ b) :=
          Nat.mul_le_mul_left _ (Nat.mul_le_mul_right _ (Nat.le_of_lt hM2))
      _ = 2 ^ L * 2 ^ a := by
          rw [← pow_add, ← pow_add, ← pow_add]
          congr 1
          omega
      _ ≤ n * 2 ^ a := Nat.mul_le_mul_right _ hL1
  · calc n * 2 ^ a < 2 ^ (L + 1) * 2 ^ a := Nat.mul_lt_mul_of_pos_right hL2 ha
      _ = 2 ^ (K + 2) * (2 ^ M * 2 ^ b) := by
          rw [← pow_add, ← pow_add, ← pow_add]
          congr 1
          omega
      _ ≤ 2 ^ (K + 2) * (d * 2 ^ b) :=
          Nat.mul_le_mul_left _ (Nat.mul_le_mul_right _ hM1)

theorem toNat_sub_toNat_neg (s : Int) : (s.toNat : Int) - ((-s).toNat : Int) = s := by
  omega

theorem scaled_bounds (n d : Nat) (hn : 0 < n) (hd : 0 < d) (K : Nat) (s : Int)
    (hs : s = (K : Int) + 1 + (ilog2 d : Int) - (ilog2 n : Int)) :
    2 ^ K * scaledDen d s ≤ scaledNum n s ∧ scaledNum n s < 2 ^ (K + 2) * scaledDen d s := by
  unfold scaledDen scaledNum
  apply scaled_pow_bounds n d (ilog2 n) (ilog2 d) K _ _ (ilog2_le n hn) (lt_ilog2 n hn)
    (ilog2_le d hd) (lt_ilog2 d hd)
  have := toNat_sub_toNat_neg s
  omega

theorem scaled_pred_lower (n d : Nat) (s : Int) (c : Nat)
    (h : 2 * c * scaledDen d s ≤ scaledNum n s) :
    c * scaledDen d (s - 1) ≤ scaledNum n (s - 1) := by
  unfold scaledDen scaledNum at *
  rcases le_or_lt 1 s with h1 | h1
  · have e1 : (-s).toNat = 0 := by omega
    have e2 : (-(s - 1)).toNat = 0 := by omega
    have e3 : s.toNat = (s - 1).toNat + 1 := by omega
    rw [e1, e3, pow_succ] at h
    rw [e2]
    simp only [pow_zero, Nat.mul_one] at h ⊢
    have : 2 * (c * d) ≤ 2 * (n * 2 ^ (s - 1).toNat) := by
      calc 2 * (c * d) = 2 * c * d := by ring
        _ ≤ n * (2 ^ (s - 1).toNat * 2) := h
        _ = 2 * (n * 2 ^ (s - 1).toNat) := by ring
    omega
  · have e1 : s.toNat = 0 := by omega
    have e2 : (s - 1).toNat = 0 := by omega
    have e3 : (-(s - 1)).toNat = (-s).toNat + 1 := by omega
    rw [e1] at h
    rw [e2, e3, pow_succ]
    simp only [pow_zero, Nat.mul_one] at h ⊢
    calc c * (d * (2 ^ (-s).toNat * 2)) = 2 * c * (d * 2 ^ (-s).toNat) := by ring
      _ ≤ n := h

theorem scaledDen_pos (d : Nat) (s : Int) (hd : 0 < d) : 0 < scaledDen d s :=
  Nat.mul_pos hd (Nat.pow_pos (by decide))

theorem normShift_spec (n d : Nat) (hn : 0 < n) (hd : 0 < d) :
    8388608 * scaledDen d (normShift n d) ≤ scaledNum n (normShift n d) ∧
    scaledNum n (normShift n d) < 16777216 * scaledDen d (normShift n d) ∧
    (24 + (ilog2 d : Int) - (ilog2 n : Int)) - 1 ≤ normShift n d ∧
    normShift n d ≤ 24 + (ilog2 d : Int) - (ilog2 n : Int) := by
  have hD := scaledDen_pos d (24 + (ilog2 d : Int) - (ilog2 n : Int)) hd
  have h0 := scaled_bounds n d hn hd 23 (24 + (ilog2 d : Int) - (ilog2 n : Int)) (by omega)
  have h1 := scaled_bounds n d hn hd 22 (24 + (ilog2 d : Int) - (ilog2 n : Int) - 1) (by omega)
  unfold normShift
  simp only
  split
  · rename_i hq
    have hq2 : 2 * 8388608 * scaledDen d (24 + (ilog2 d : Int) - (ilog2 n : Int)) ≤
        scaledNum n (24 + (ilog2 d : Int) - (ilog2 n : Int)) := by
      have := (Nat.le_div_iff_mul_le hD).1 hq
      omega
    refine ⟨scaled_pred_lower n d _ 8388608 hq2, ?_, by omega, by omega⟩
    simpa using h1.2
  · rename_i hq
    have hq2 := (Nat.div_lt_iff_lt_mul hD).1 (Nat.lt_of_not_le hq)
    refine ⟨by simpa using h0.1, ?_, by omega, by omega⟩
    omega

theorem roundAt_normal (neg : Bool) (n d : Nat) (e s : Int) (hd : 0 < d)
    (hlo : 8388608 * scaledDen d s ≤ scaledNum n s)
    (hhi : scaledNum n s < 16777216 * scaledDen d s)
    (hex : e - s + 1 ≤ 104) :
    ∃ m ex, roundAt neg n d e s = F32.fin neg m ex ∧ 8388608 ≤ m ∧ m < 16777216 ∧
      e - s ≤ ex ∧ ex ≤ e - s + 1 := by
  have hD := scaledDen_pos d s hd
  have hq1 : 8388608 ≤ scaledNum n s / scaledDen d s := (Nat.le_div_iff_mul_le hD).2 hlo
  have hq2 : scaledNum n s / scaledDen d s < 16777216 := by
    apply (Nat.div_lt_iff_lt_mul hD).2
    omega
  have hx1 : ¬ (104 < e - s + 1) := by omega
  have hx2 : ¬ (104 < e - s) := by omega
  unfold roundAt
  simp only [if_neg hx1, if_neg hx2]
  split
  · split
    · exact ⟨_, _, rfl, by omega, by omega, by omega, by omega⟩
    · exact ⟨_, _, rfl, by omega, by omega, by omega, by omega⟩
  · rw [if_neg (Nat.ne_of_lt hq2)]
    exact ⟨_, _, rfl, by omega, by omega, by omega, by omega⟩

theorem roundQ_normal (neg : Bool) (n d : Nat) (e : Int) (hn : 0 < n) (hd : 0 < d)
    (hlo : 24 + (ilog2 d : Int) - (ilog2 n : Int) ≤ e + 149)
    (hhi : e - (24 + (ilog2 d : Int) - (ilog2 n : Int)) + 2 ≤ 104) :
    ∃ m ex, roundQ neg n d e = F32.fin neg m ex ∧ 8388608 ≤ m ∧ m < 16777216 ∧
      e - (24 + (ilog2 d : Int) - (ilog2 n : Int)) ≤ ex ∧
      ex ≤ e - (24 + (ilog2 d : Int) - (ilog2 n : Int)) + 2 := by
  obtain ⟨h1, h2, h3, h4⟩ := normShift_spec n d hn hd
  have hmin : min (normShift n d) (e + 149) = normShift n d := by omega
  unfold roundQ
  rw [if_neg (by omega), hmin]
  obtain ⟨m, ex, hr, hm1, hm2, he1, he2⟩ :=
    roundAt_normal neg n d e (normShift n d) hd h1 h2 (by omega)
  exact ⟨m, ex, hr, hm1, hm2, by omega, by omega⟩

theorem roundQ_self (m : Nat) (hm : 0 < m) : roundQ false m m 0 = F32.one := by
  have hs : normShift m m = 23 := by
    unfold normShift
    have e1 : (24 : Int) + (ilog2 m : Int) - (ilog2 m : Int) = ((24 : Nat) : Int) := by omega
    simp only [e1]
    have : scaledNum m ((24 : Nat) : Int) / scaledDen m ((24 : Nat) : Int) = 16777216 := by
      simp [scaledNum, scaledDen, Nat.mul_div_cancel_left _ hm]
    rw [this]
    simp
  unfold roundQ
  rw [if_neg (by omega), hs]
  have hmin : min (23 : Int) (0 + 149) = ((23 : Nat) : Int) := by decide
  rw [hmin]
  unfold roundAt
  have hN : scaledNum m ((23 : Nat) : Int) = m * 8388608 := by simp [scaledNum]
  have hD : scaledDen m ((23 : Nat) : Int) = m := by simp [scaledDen]
  simp only [hN, hD, Nat.mul_div_cancel_left _ hm, Nat.mul_mod_right]
  have hne : ¬ (m < 2 * 0 ∨ 2 * 0 = m ∧ 8388608 % 2 = 1) := by omega
  rw [if_neg hne]
  simp [F32.one]

theorem MILLISECONDS_TO_SECONDS_eq :
    MILLISECONDS_TO_SECONDS = F32.fin false 8589935 (-33) := by decide

theorem ofUInt32_normal (t : Nat) (h1 : 0 < t) (h2 : t < 4294967296) :
    ∃ m ex, F32.ofUInt32 t = F32.fin false m ex ∧ 8388608 ≤ m ∧ m < 16777216 ∧
      -24 ≤ ex ∧ ex ≤ 9 := by
  have hl : ilog2 t < 32 := ilog2_lt_of_lt t 32 h1 (by simpa using h2)
  have h0 : ilog2 1 = 0 := by decide
  obtain ⟨m, ex, hr, hm1, hm2, he1, he2⟩ :=
    roundQ_normal false t 1 0 h1 (by decide) (by rw [h0]; omega) (by rw [h0]; omega)
  rw [h0] at he1 he2
  exact ⟨m, ex, hr, hm1, hm2, by omega, by omega⟩

theorem duration_normal (t : Nat) (h1 : 0 < t) (h2 : t < 4294967296) :
    ∃ m ex, F32.mul MILLISECONDS_TO_SECONDS (F32.ofUInt32 t) = F32.fin false m ex ∧
      8388608 ≤ m ∧ m < 16777216 := by
  obtain ⟨m, ex, hr, hm1, hm2, he1, he2⟩ := ofUInt32_normal t h1 h2
  rw [hr, MILLISECONDS_TO_SECONDS_eq]
  have hpos : 0 < 8589935 * m := by omega
  have hlo : 2 ^ 46 ≤ 8589935 * m := by norm_num; omega
  have hhi : 8589935 * m < 2 ^ 48 := by norm_num; omega
  have hl1 := le_ilog2_of_le _ 46 hpos hlo
  have hl2 := ilog2_lt_of_lt _ 48 hpos hhi
  have h0 : ilog2 1 = 0 := by decide
  obtain ⟨m', ex', hr', hm1', hm2', -, -⟩ :=
    roundQ_normal false (8589935 * m) 1 (-33 + ex) hpos (by decide)
      (by rw [h0]; omega) (by rw [h0]; omega)
  exact ⟨m', ex', by simpa [F32.mul] using hr', hm1', hm2'⟩

theorem div_self_eq_one (m : Nat) (ex : Int) (hm : 0 < m) :
    F32.div (F32.fin false m ex) (F32.fin false m ex) = F32.one := by
  have h := roundQ_self m hm
  simp only [F32.div, if_neg (Nat.ne_of_gt hm), Bool.xor_self, sub_self]
  exact h

theorem duration_zero : F32.mul MILLISECONDS_TO_SECONDS (F32.ofUInt32 0) = F32.zero := by
  decide

theorem div_zero_zero : F32.div F32.zero F32.zero = F32.nan := by decide

theorem progress_last_eq_one (t : Nat) (h1 : 0 < t) (h2 : t < 4294967296) :
    F32.div (F32.mul MILLISECONDS_TO_SECONDS (F32.ofUInt32 t))
      (F32.mul MILLISECONDS_TO_SECONDS (F32.ofUInt32 t)) = F32.one := by
  obtain ⟨m, ex, hr, hm1, _⟩ := duration_normal t h1 h2
  rw [hr]
  exact div_self_eq_one m ex (by omega)

theorem duration_isPositive (t : Nat) (h1 : 0 < t) (h2 : t < 4294967296) :
    (F32.mul MILLISECONDS_TO_SECONDS (F32.ofUInt32 t)).isPositive = true := by
  obtain ⟨m, ex, hr, hm1, _⟩ := duration_normal t h1 h2
  rw [hr]
  simp [F32.isPositive]
  omega

/-- Known binary32 values: `0.001f` is `0x3A83126F`, `0.1f` is `0x3DCCCCCD`, a third
is `0x3EAAAAAB`; `500.0f`, `0.5f` and `1.0f` are exact. -/
theorem roundQ_known_values :
    roundQ false 1 1000 0 = F32.fin false 8589935 (-33) ∧
    roundQ false 1 10 0 = F32.fin false 13421773 (-27) ∧
    roundQ false 1 3 0 = F32.fin false 11184811 (-25) ∧
    F32.ofUInt32 500 = F32.fin false 16384000 (-15) ∧
    F32.mul MILLISECONDS_TO_SECONDS (F32.ofUInt32 500) = F32.fin false 8388608 (-24) ∧
    F32.ofUInt32 1 = F32.one := by
  decide

/-- Ties go to the even significand: `2 ^ 24 + 1` rounds down, `2 ^ 24 + 3` rounds
up, and `2 ^ 32 - 1` rounds up to `2 ^ 32`. -/
theorem ofUInt32_ties :
    F32.ofUInt32 16777217 = F32.fin false 8388608 1 ∧
    F32.ofUInt32 16777219 = F32.fin false 8388610 1 ∧
    F32.ofUInt32 4294967295 = F32.fin false 8388608 9 := by
  decide

/-- Below the normal range the unit is `2 ^ (-149)`, above the largest finite value
the result is infinite, and `0 / 0` is `NaN`. -/
theorem roundQ_range_ends :
    roundQ false 3 2 (-149) = F32.fin false 2 (-149) ∧
    roundQ false 1 2 (-149) = F32.fin false 0 (-149) ∧
    roundQ false 16777215 1 104 = F32.fin false 16777215 104 ∧
    roundQ false 33554431 2 104 = F32.inf false ∧
    F32.div F32.zero F32.zero = F32.nan := by
  decide

/-! ## Accuracy of the rounding -/

theorem scaled_ratio (n d : Nat) (s : Int) (hd : 0 < d) :
    ((scaledNum n s : Nat) : ℚ) / ((scaledDen d s : Nat) : ℚ) = (n : ℚ) / (d : ℚ) * (2 : ℚ) ^ s := by
  have hd' : (d : ℚ) ≠ 0 := by exact_mod_cast Nat.ne_of_gt hd
  unfold scaledNum scaledDen
  rcases le_or_lt 0 s with h | h
  · obtain ⟨a, rfl⟩ := Int.eq_ofNat_of_zero_le h
    have e1 : (-(a : Int)).toNat = 0 := by omega
    simp only [Int.toNat_ofNat, e1, pow_zero, Nat.mul_one, Nat.cast_mul, Nat.cast_pow,
      Nat.cast_ofNat, zpow_natCast]
    field_simp
  · obtain ⟨a, ha⟩ := Int.eq_ofNat_of_zero_le (show 0 ≤ -s by omega)
    have hs : s = -(a : Int) := by omega
    subst hs
    have e1 : (-(a : Int)).toNat = 0 := by omega
    simp only [e1, neg_neg, Int.toNat_ofNat, pow_zero, Nat.mul_one, Nat.cast_mul, Nat.cast_pow,
      Nat.cast_ofNat, zpow_neg, zpow_natCast]
    field_simp

theorem roundAt_error (n d : Nat) (e s : Int) (hd : 0 < d)
    (hlo : 8388608 * scaledDen d s ≤ scaledNum n s)
    (hhi : scaledNum n s < 16777216 * scaledDen d s)
    (hex : e - s + 1 ≤ 104) :
    ∃ m ex, roundAt false n d e s = F32.fin false m ex ∧
      |(m : ℚ) * (2 : ℚ) ^ ex - (n : ℚ) / (d : ℚ) * (2 : ℚ) ^ e| ≤
        (n : ℚ) / (d : ℚ) * (2 : ℚ) ^ e / 16777216 := by
  have hD := scaledDen_pos d s hd
  have hDq : (0 : ℚ) < (scaledDen d s : ℚ) := by exact_mod_cast hD
  have hq1 : 8388608 ≤ scaledNum n s / scaledDen d s := (Nat.le_div_iff_mul_le hD).2 hlo
  have hq2 : scaledNum n s / scaledDen d s < 16777216 := by
    apply (Nat.div_lt_iff_lt_mul hD).2
    omega
  have hx1 : ¬ (104 < e - s + 1) := by omega
  have hx2 : ¬ (104 < e - s) := by omega
  have hdm := Nat.div_add_mod (scaledNum n s) (scaledDen d s)
  have hmod := Nat.mod_lt (scaledNum n s) hD
  -- the exact value, written with the quotient and the remainder
  have hval : (n : ℚ) / (d : ℚ) * (2 : ℚ) ^ e =
      (((scaledNum n s / scaledDen d s : Nat) : ℚ) +
        ((scaledNum n s % scaledDen d s : Nat) : ℚ) / (scaledDen d s : ℚ)) * (2 : ℚ) ^ (e - s) := by
    have h1 : (n : ℚ) / (d : ℚ) * (2 : ℚ) ^ e =
        ((scaledNum n s : ℚ) / (scaledDen d s : ℚ)) * (2 : ℚ) ^ (e - s) := by
      rw [scaled_ratio n d s hd, mul_assoc, ← zpow_add₀ (by norm_num : (2 : ℚ) ≠ 0)]
      congr 2
      omega
    rw [h1]
    congr 1
    have h2 : (scaledNum n s : ℚ) =
        (scaledDen d s : ℚ) * ((scaledNum n s / scaledDen d s : Nat) : ℚ) +
          ((scaledNum n s % scaledDen d s : Nat) : ℚ) := by
      exact_mod_cast hdm.symm
    rw [h2]
    field_simp
    ring
  have hpow : (0 : ℚ) < (2 : ℚ) ^ (e - s) := zpow_pos (by norm_num) _
  have hpow1 : (2 : ℚ) ^ (e - s + 1) = 2 * (2 : ℚ) ^ (e - s) := by
    rw [zpow_add₀ (by norm_num : (2 : ℚ) ≠ 0), zpow_one, mul_comm]
  generalize hq : scaledNum n s / scaledDen d s = q at *
  generalize hr : scaledNum n s % scaledDen d s = r at *
  generalize hDD : scaledDen d s = D at *
  generalize hP : (2 : ℚ) ^ (e - s) = P at *
  have hqQ : (8388608 : ℚ) ≤ (q : ℚ) := by exact_mod_cast hq1
  have hrQ : (0 : ℚ) ≤ (r : ℚ) / (D : ℚ) := by positivity
  have hxlow : 8388608 * P ≤ ((q : ℚ) + (r : ℚ) / (D : ℚ)) * P := by
    apply mul_le_mul_of_nonneg_right _ (le_of_lt hpow)
    linarith
  unfold roundAt
  simp only [if_neg hx1, if_neg hx2, hq, hr, hDD]
  rw [hval]
  by_cases hup : D < 2 * r ∨ 2 * r = D ∧ q % 2 = 1
  · have hhalf : (D : ℚ) ≤ 2 * (r : ℚ) := by
      rcases hup with h | ⟨h, -⟩
      · exact_mod_cast Nat.le_of_lt h
      · exact_mod_cast Nat.le_of_eq h.symm
    have hfrac1 : (1 : ℚ) / 2 ≤ (r : ℚ) / (D : ℚ) := by
      rw [div_le_div_iff₀ (by norm_num) hDq]
      linarith
    have hfrac2 : (r : ℚ) / (D : ℚ) ≤ 1 := by
      rw [div_le_one hDq]
      exact_mod_cast Nat.le_of_lt hmod
    have hbound : |((q : ℚ) + 1) * P - ((q : ℚ) + (r : ℚ) / (D : ℚ)) * P| ≤
        ((q : ℚ) + (r : ℚ) / (D : ℚ)) * P / 16777216 := by
      rw [abs_le]
      constructor <;> nlinarith
    rw [if_pos hup]
    by_cases hc : q + 1 = 16777216
    · rw [if_pos hc]
      refine ⟨_, _, rfl, ?_⟩
      have hq' : ((q : ℚ) + 1) = 16777216 := by exact_mod_cast hc
      rw [hq'] at hbound
      have : (8388608 : ℚ) * (2 * P) = 16777216 * P := by ring
      push_cast
      rw [hpow1, this]
      exact hbound
    · rw [if_neg hc]
      refine ⟨_, _, rfl, ?_⟩
      push_cast
      rw [hP]
      exact hbound
  · have hhalf : 2 * (r : ℚ) ≤ (D : ℚ) := by
      have : 2 * r ≤ D := by
        by_contra hcon
        exact hup (Or.inl (by omega))
      exact_mod_cast this
    have hfrac1 : (r : ℚ) / (D : ℚ) ≤ 1 / 2 := by
      rw [div_le_div_iff₀ hDq (by norm_num)]
      linarith
    have hbound : |(q : ℚ) * P - ((q : ℚ) + (r : ℚ) / (D : ℚ)) * P| ≤
        ((q : ℚ) + (r : ℚ) / (D : ℚ)) * P / 16777216 := by
      rw [abs_le]
      constructor <;> nlinarith
    rw [if_neg hup, if_neg (Nat.ne_of_lt hq2)]
    refine ⟨_, _, rfl, ?_⟩
    rw [hP]
    exact hbound

theorem roundQ_error (n d : Nat) (e : Int) (hn : 0 < n) (hd : 0 < d)
    (hlo : 24 + (ilog2 d : Int) - (ilog2 n : Int) ≤ e + 149)
    (hhi : e - (24 + (ilog2 d : Int) - (ilog2 n : Int)) + 2 ≤ 104) :
    ∃ m ex, roundQ false n d e = F32.fin false m ex ∧
      |(m : ℚ) * (2 : ℚ) ^ ex - (n : ℚ) / (d : ℚ) * (2 : ℚ) ^ e| ≤
        (n : ℚ) / (d : ℚ) * (2 : ℚ) ^ e / 16777216 := by
  obtain ⟨h1, h2, h3, h4⟩ := normShift_spec n d hn hd
  have hmin : min (normShift n d) (e + 149) = normShift n d := by omega
  unfold roundQ
  rw [if_neg (by omega), hmin]
  exact roundAt_error n d e (normShift n d) hd h1 h2 (by omega)

theorem ofUInt32_error (t : Nat) (h1 : 0 < t) (h2 : t < 4294967296) :
    ∃ m ex, F32.ofUInt32 t = F32.fin false m ex ∧ 8388608 ≤ m ∧ m < 16777216 ∧
      -24 ≤ ex ∧ ex ≤ 9 ∧ |(m : ℚ) * (2 : ℚ) ^ ex - (t : ℚ)| ≤ (t : ℚ) / 16777216 := by
  obtain ⟨m, ex, hr, hm1, hm2, he1, he2⟩ := ofUInt32_normal t h1 h2
  have hl : ilog2 t < 32 := ilog2_lt_of_lt t 32 h1 (by simpa using h2)
  have h0 : ilog2 1 = 0 := by decide
  obtain ⟨m', ex', hr', herr⟩ :=
    roundQ_error t 1 0 h1 (by decide) (by rw [h0]; omega) (by rw [h0]; omega)
  have heq : F32.fin false m ex = F32.fin false m' ex' := by
    rw [← hr, ← hr']
    rfl
  cases heq
  refine ⟨m, ex, hr, hm1, hm2, he1, he2, ?_⟩
  simpa using herr

/-- The duration is the quotient of the last frame time by 1000 up to a relative
error of `2 ^ (-22)`. -/
theorem durationOf_error (t : uint32_t) :
    ∃ q : ℚ, (durationOf t).toRat = some q ∧
      |q - (t.val : ℚ) / 1000| ≤ (t.val : ℚ) / 1000 / 4194304 := by
  rcases Nat.eq_zero_or_pos t.val with h0 | hpos
  · refine ⟨0, ?_, ?_⟩
    · rw [durationOf, h0, duration_zero]
      simp [F32.zero, F32.toRat]
    · rw [h0]
      simp
  · obtain ⟨m, ex, hr, hm1, hm2, he1, he2, herr⟩ := ofUInt32_error t.val hpos t.isLt
    have hposm : 0 < 8589935 * m := by omega
    have hlo : 2 ^ 46 ≤ 8589935 * m := by norm_num; omega
    have hhi : 8589935 * m < 2 ^ 48 := by norm_num; omega
    have hl1 := le_ilog2_of_le _ 46 hposm hlo
    have hl2 := ilog2_lt_of_lt _ 48 hposm hhi
    have h0 : ilog2 1 = 0 := by decide
    obtain ⟨m', ex', hr', herr'⟩ :=
      roundQ_error (8589935 * m) 1 (-33 + ex) hposm (by decide)
        (by rw [h0]; omega) (by rw [h0]; omega)
    have hd : durationOf t = F32.fin false m' ex' := by
      rw [durationOf, hr, MILLISECONDS_TO_SECONDS_eq]
      simpa [F32.mul] using hr'
    refine ⟨(m' : ℚ) * (2 : ℚ) ^ ex', ?_, ?_⟩
    · rw [hd]
      simp [F32.toRat]
    · have hx : ((8589935 * m : Nat) : ℚ) / ((1 : Nat) : ℚ) * (2 : ℚ) ^ (-33 + ex) =
          8589935 / 8589934592 * ((m : ℚ) * (2 : ℚ) ^ ex) := by
        rw [zpow_add₀ (by norm_num : (2 : ℚ) ≠ 0)]
        have : (2 : ℚ) ^ (-33 : Int) = 1 / 8589934592 := by norm_num [zpow_neg]
        rw [this]
        push_cast
        ring
      rw [hx] at herr'
      have htq : (0 : ℚ) ≤ (t.val : ℚ) := by positivity
      rw [abs_le] at herr herr' ⊢
      obtain ⟨ha1, ha2⟩ := herr
      obtain ⟨hb1, hb2⟩ := herr'
      constructor <;> linarith

/-! ## Facts about the loops -/

theorem bind_eq_ok_iff {ε α β : Type} (x : Except ε α) (f : α → Except ε β) (r : β) :
    (x >>= f) = .ok r ↔ ∃ a, x = .ok a ∧ f a = .ok r := by
  cases x <;> simp [bind, Except.bind]

theorem rangeUpdate_length (g : Nat → AnimatedProperty → AnimatedProperty) (t n : Nat)
    (props : List AnimatedProperty) : (rangeUpdate g t n props).length = props.length := by
  simp [rangeUpdate]

theorem rangeUpdate_getElem? (g : Nat → AnimatedProperty → AnimatedProperty) (t n : Nat)
    (props : List AnimatedProperty) (i : Nat) :
    (rangeUpdate g t n props)[i]? =
      (props[i]?).map (fun p => if t ≤ i ∧ i < t + n then g (i - t) p else p) := by
  simp [rangeUpdate]

theorem rangeUpdate_zero (g : Nat → AnimatedProperty → AnimatedProperty) (t : Nat)
    (props : List AnimatedProperty) : rangeUpdate g t 0 props = props := by
  apply List.ext_getElem?
  intro i
  rw [rangeUpdate_getElem?]
  have hno : ¬ (t ≤ i ∧ i < t + 0) := by omega
  cases props[i]? with
  | none => rfl
  | some p => simp only [Option.map_some', if_neg hno]

theorem rangeUpdate_succ (g : Nat → AnimatedProperty → AnimatedProperty) (t n : Nat)
    (props : List AnimatedProperty) :
    (rangeUpdate g t n props).modify (g n) (t + n) = rangeUpdate g t (n + 1) props := by
  apply List.ext_getElem?
  intro i
  rw [List.getElem?_modify, rangeUpdate_getElem?, rangeUpdate_getElem?]
  cases props[i]? with
  | none => rfl
  | some p =>
    simp only [Option.map_some', Option.map_eq_map]
    by_cases h1 : t + n = i
    · subst h1
      have e1 : ¬ (t ≤ t + n ∧ t + n < t + n) := by omega
      have e2 : (t ≤ t + n ∧ t + n < t + (n + 1)) := by omega
      simp [e1, e2]
    · by_cases h2 : t ≤ i ∧ i < t + n
      · have e2 : (t ≤ i ∧ i < t + (n + 1)) := by omega
        simp [h1, h2, e2]
      · have e2 : ¬ (t ≤ i ∧ i < t + (n + 1)) := by omega
        simp [h1, h2, e2]

theorem morphLoop_ok_iff (h : Nat → AnimatedProperty → AnimatedProperty) (C : Nat → Prop)
    (t len : Nat) (step : List AnimatedProperty → Nat → Except Access (List AnimatedProperty))
    (hstep : ∀ props m r, step props m = .ok r ↔
      ((t + m) % 4294967296 < props.length ∧ C m ∧
        r = props.modify (h m) ((t + m) % 4294967296)))
    (hlen : len < 4294967296) (ht : t ≤ len) :
    ∀ (n : Nat) (props r : List AnimatedProperty), props.length = len →
      ((List.range n).foldlM step props = .ok r ↔
        (t + n ≤ len ∧ ∀ m, m < n → C m) ∧ r = rangeUpdate h t n props) := by
  intro n
  induction n with
  | zero =>
    intro props r hp
    simp only [List.range_zero, List.foldlM_nil, rangeUpdate_zero]
    constructor
    · intro hr
      cases hr
      exact ⟨⟨by omega, by intro m hm; omega⟩, rfl⟩
    · rintro ⟨-, rfl⟩
      rfl
  | succ n ih =>
    intro props r hp
    rw [List.range_succ, List.foldlM_append, bind_eq_ok_iff]
    constructor
    · rintro ⟨r1, h1, h2⟩
      obtain ⟨⟨hb, hc⟩, rfl⟩ := (ih props r1 hp).1 h1
      simp only [List.foldlM_cons, List.foldlM_nil, bind_pure] at h2
      obtain ⟨hi, hcn, rfl⟩ := (hstep _ n r).1 h2
      rw [rangeUpdate_length, hp] at hi
      have hmod : (t + n) % 4294967296 = t + n := Nat.mod_eq_of_lt (by omega)
      rw [hmod] at hi ⊢
      refine ⟨⟨by omega, ?_⟩, rangeUpdate_succ h t n props⟩
      intro m hm
      rcases Nat.lt_succ_iff_lt_or_eq.1 hm with hlt | rfl
      · exact hc m hlt
      · exact hcn
    · rintro ⟨⟨hb, hc⟩, rfl⟩
      refine ⟨rangeUpdate h t n props, (ih props _ hp).2 ⟨⟨by omega, fun m hm => hc m (by omega)⟩, rfl⟩, ?_⟩
      simp only [List.foldlM_cons, List.foldlM_nil, bind_pure]
      have hmod : (t + n) % 4294967296 = t + n := Nat.mod_eq_of_lt (by omega)
      apply (hstep _ n _).2
      rw [hmod, rangeUpdate_length, hp]
      exact ⟨by omega, hc n (by omega), (rangeUpdate_succ h t n props).symm⟩

theorem set_eq_modify (f : AnimatedProperty → AnimatedProperty) (props : List AnimatedProperty)
    (i : Nat) (p : AnimatedProperty) (hp : props[i]? = some p) :
    props.set i (f p) = props.modify f i := by
  apply List.ext_getElem?
  intro k
  rw [List.getElem?_set, List.getElem?_modify]
  by_cases hik : i = k
  · subst hik
    have hlt : i < props.length := by
      rcases Nat.lt_or_ge i props.length with h | h
      · exact h
      · rw [List.getElem?_eq_none h] at hp
        cases hp
    simp [hlt, hp]
  · simp [hik]

theorem setWeightName_ok_iff (duration : F32) (b : BlendShape) (t : Nat)
    (props : List AnimatedProperty) (m : Nat) (r : List AnimatedProperty) :
    setWeightName duration b t props m = .ok r ↔
      ((t + m) % 4294967296 < props.length ∧ True ∧
        r = props.modify (named duration b m) ((t + m) % 4294967296)) := by
  unfold setWeightName
  simp only
  cases hp : props[(t + m) % 4294967296]? with
  | none =>
    have hge := List.getElem?_eq_none_iff.1 hp
    simp
    intro hlt
    omega
  | some p =>
    have hlt : (t + m) % 4294967296 < props.length := by
      rcases Nat.lt_or_ge ((t + m) % 4294967296) props.length with h | h
      · exact h
      · rw [List.getElem?_eq_none h] at hp
        cases hp
    simp only [Except.ok.injEq, hlt, true_and]
    rw [set_eq_modify _ _ _ _ hp]
    exact eq_comm

/-- The read `mKeys[f][m]` is inside both vectors. -/
theorem keyAt_of_readable (b : BlendShape) (f m : Nat) (row : List F32) (v : F32)
    (h1 : b.mKeys[f]? = some row) (h2 : row[m]? = some v) : keyAt b f m = v := by
  simp [keyAt, h1, h2]

theorem addKeyFrame_ok_iff (b : BlendShape) (f : Nat) (progress : F32) (t : Nat)
    (props : List AnimatedProperty) (m : Nat) (r : List AnimatedProperty) :
    addKeyFrame b f progress t props m = .ok r ↔
      ((t + m) % 4294967296 < props.length ∧
        (∃ row v, b.mKeys[f]? = some row ∧ row[m]? = some v) ∧
        r = props.modify (withKey progress (keyAt b f m)) ((t + m) % 4294967296)) := by
  unfold addKeyFrame
  simp only
  cases hp : props[(t + m) % 4294967296]? with
  | none =>
    have hge := List.getElem?_eq_none_iff.1 hp
    simp
    intro hlt
    omega
  | some p =>
    have hlt : (t + m) % 4294967296 < props.length := by
      rcases Nat.lt_or_ge ((t + m) % 4294967296) props.length with h | h
      · exact h
      · rw [List.getElem?_eq_none h] at hp
        cases hp
    cases hrow : b.mKeys[f]? with
    | none => simp
    | some row =>
      cases hv : row[m]? with
      | none => simp [hv]
      | some v =>
        have hk := keyAt_of_readable b f m row v hrow hv
        simp only [Except.ok.injEq, hlt, true_and, hk, Option.some.injEq, exists_and_left,
          exists_eq_left', hv, exists_eq', true_and]
        rw [set_eq_modify _ _ _ _ hp]
        exact eq_comm

theorem nameBlendShape_ok_iff (duration : F32) (b : BlendShape) (t len : Nat)
    (props r : List AnimatedProperty) (hlen : len < 4294967296) (ht : t ≤ len)
    (hp : props.length = len) :
    nameBlendShape duration b t props = .ok r ↔
      (t + b.mNumberOfMorphTarget.val ≤ len ∧
        r = rangeUpdate (named duration b) t b.mNumberOfMorphTarget.val props) := by
  unfold nameBlendShape
  rw [morphLoop_ok_iff (named duration b) (fun _ => True) t len _
    (setWeightName_ok_iff duration b t) hlen ht _ props r hp]
  simp

theorem sampleFrame_ok_iff (fa : FacialAnimation) (duration : F32) (b : BlendShape)
    (t len : Nat) (props r : List AnimatedProperty) (f : Nat) (hlen : len < 4294967296)
    (ht : t + b.mNumberOfMorphTarget.val ≤ len) (hp : props.length = len) :
    sampleFrame fa duration b t props f = .ok r ↔
      (sampleable fa b f ∧
        r = rangeUpdate (fun m => withKey (progressAt fa duration f) (keyAt b f m)) t
          b.mNumberOfMorphTarget.val props) := by
  unfold sampleFrame sampleable progressAt
  cases htm : fa.mTime[f]? with
  | none => simp
  | some tm =>
    simp only
    rw [morphLoop_ok_iff (fun m => withKey (progressOf duration tm) (keyAt b f m))
      (fun m => ∃ row v, b.mKeys[f]? = some row ∧ row[m]? = some v) t len _
      (addKeyFrame_ok_iff b f (progressOf duration tm) t) hlen (by omega) _ props r hp]
    simp [ht]

theorem rangeUpdate_congr (g g' : Nat → AnimatedProperty → AnimatedProperty) (t n : Nat)
    (props : List AnimatedProperty) (h : ∀ m p, g m p = g' m p) :
    rangeUpdate g t n props = rangeUpdate g' t n props := by
  have : g = g' := by
    funext m p
    exact h m p
  rw [this]

theorem rangeUpdate_id (g : Nat → AnimatedProperty → AnimatedProperty) (t n : Nat)
    (props : List AnimatedProperty) (h : ∀ m p, g m p = p) :
    rangeUpdate g t n props = props := by
  apply List.ext_getElem?
  intro i
  rw [rangeUpdate_getElem?]
  cases props[i]? with
  | none => rfl
  | some p => simp [h]

theorem rangeUpdate_comp (g1 g2 : Nat → AnimatedProperty → AnimatedProperty) (t n : Nat)
    (props : List AnimatedProperty) :
    rangeUpdate g2 t n (rangeUpdate g1 t n props) =
      rangeUpdate (fun m p => g2 m (g1 m p)) t n props := by
  apply List.ext_getElem?
  intro i
  rw [rangeUpdate_getElem?, rangeUpdate_getElem?, rangeUpdate_getElem?]
  cases props[i]? with
  | none => rfl
  | some p =>
    by_cases hin : t ≤ i ∧ i < t + n
    · simp [hin]
    · simp [hin]

theorem trackOf_succ (fa : FacialAnimation) (duration : F32) (b : BlendShape) (m k : Nat) :
    trackOf fa duration b m (k + 1) =
      trackOf fa duration b m k ++ [(progressAt fa duration k, keyAt b k m)] := by
  simp [trackOf, List.range_succ]

theorem sampled_zero (fa : FacialAnimation) (duration : F32) (b : BlendShape) (m : Nat)
    (p : AnimatedProperty) : sampled fa duration 0 b m p = p := by
  simp [sampled, trackOf]

theorem sampled_succ (fa : FacialAnimation) (duration : F32) (b : BlendShape) (m k : Nat)
    (p : AnimatedProperty) :
    withKey (progressAt fa duration k) (keyAt b k m) (sampled fa duration k b m p) =
      sampled fa duration (k + 1) b m p := by
  simp [sampled, withKey, trackOf_succ]

theorem frameLoop_ok_iff (fa : FacialAnimation) (duration : F32) (b : BlendShape)
    (t len : Nat) (hlen : len < 4294967296) (ht : t + b.mNumberOfMorphTarget.val ≤ len) :
    ∀ (n : Nat) (props r : List AnimatedProperty), props.length = len →
      ((List.range n).foldlM (sampleFrame fa duration b t) props = .ok r ↔
        ((∀ f, f < n → sampleable fa b f) ∧
          r = rangeUpdate (sampled fa duration n b) t b.mNumberOfMorphTarget.val props)) := by
  intro n
  induction n with
  | zero =>
    intro props r hp
    rw [rangeUpdate_id _ _ _ _ (sampled_zero fa duration b)]
    simp only [List.range_zero, List.foldlM_nil]
    constructor
    · intro hr
      cases hr
      exact ⟨by intro f hf; omega, rfl⟩
    · rintro ⟨-, rfl⟩
      rfl
  | succ n ih =>
    intro props r hp
    rw [List.range_succ, List.foldlM_append, bind_eq_ok_iff]
    have hcomp : rangeUpdate (fun m => withKey (progressAt fa duration n) (keyAt b n m)) t
        b.mNumberOfMorphTarget.val
        (rangeUpdate (sampled fa duration n b) t b.mNumberOfMorphTarget.val props) =
        rangeUpdate (sampled fa duration (n + 1) b) t b.mNumberOfMorphTarget.val props := by
      rw [rangeUpdate_comp]
      exact rangeUpdate_congr _ _ _ _ _ (fun m p => sampled_succ fa duration b m n p)
    constructor
    · rintro ⟨r1, h1, h2⟩
      obtain ⟨hc, rfl⟩ := (ih props r1 hp).1 h1
      simp only [List.foldlM_cons, List.foldlM_nil, bind_pure] at h2
      obtain ⟨hs, rfl⟩ := (sampleFrame_ok_iff fa duration b t len _ r n hlen ht
        (by rw [rangeUpdate_length, hp])).1 h2
      refine ⟨?_, hcomp⟩
      intro f hf
      rcases Nat.lt_succ_iff_lt_or_eq.1 hf with hlt | rfl
      · exact hc f hlt
      · exact hs
    · rintro ⟨hc, rfl⟩
      refine ⟨_, (ih props _ hp).2 ⟨fun f hf => hc f (by omega), rfl⟩, ?_⟩
      simp only [List.foldlM_cons, List.foldlM_nil, bind_pure]
      exact (sampleFrame_ok_iff fa duration b t len _ _ n hlen ht
        (by rw [rangeUpdate_length, hp])).2 ⟨hc n (by omega), hcomp.symm⟩

theorem sampleBlendShape_ok_iff (fa : FacialAnimation) (duration : F32) (b : BlendShape)
    (t len : Nat) (props r : List AnimatedProperty) (hlen : len < 4294967296)
    (hp : props.length = len) (ht : t + b.mNumberOfMorphTarget.val ≤ len) :
    sampleBlendShape fa duration b t props = .ok r ↔
      ((∀ f, f < fa.mNumberOfFrames.val → sampleable fa b f) ∧
        r = rangeUpdate (sampled fa duration fa.mNumberOfFrames.val b) t
          b.mNumberOfMorphTarget.val props) :=
  frameLoop_ok_iff fa duration b t len hlen ht fa.mNumberOfFrames.val props r hp

theorem morphTargetSum_cons (b : BlendShape) (rest : List BlendShape) :
    morphTargetSum (b :: rest) = b.mNumberOfMorphTarget.val + morphTargetSum rest := by
  simp [morphTargetSum]

theorem forEachBlendShape_ok_iff
    (body : BlendShape → Nat → List AnimatedProperty → Except Access (List AnimatedProperty))
    (g : BlendShape → Nat → AnimatedProperty → AnimatedProperty) (C : BlendShape → Prop)
    (len : Nat) (hlen : len < 4294967296)
    (hbody : ∀ b t props r, props.length = len → t + b.mNumberOfMorphTarget.val ≤ len →
      (body b t props = .ok r ↔
        (C b ∧ r = rangeUpdate (g b) t b.mNumberOfMorphTarget.val props))) :
    ∀ (shapes : List BlendShape) (t : Nat) (props r : List AnimatedProperty),
      props.length = len → t + morphTargetSum shapes ≤ len →
      (forEachBlendShape body shapes t props = .ok r ↔
        ((∀ b, b ∈ shapes → C b) ∧ r = updateShapes g shapes t props)) := by
  intro shapes
  induction shapes with
  | nil =>
    intro t props r _ _
    simp only [forEachBlendShape, updateShapes, Except.ok.injEq, List.not_mem_nil,
      false_implies, implies_true, true_and]
    exact eq_comm
  | cons b rest ih =>
    intro t props r hp ht
    rw [morphTargetSum_cons] at ht
    have hmod : (t + b.mNumberOfMorphTarget.val) % 4294967296 = t + b.mNumberOfMorphTarget.val :=
      Nat.mod_eq_of_lt (by omega)
    have hb := hbody b t props
    unfold forEachBlendShape updateShapes
    cases hres : body b t props with
    | error a =>
      constructor
      · intro hc
        cases hc
      rintro ⟨hall, -⟩
      have := (hb (rangeUpdate (g b) t b.mNumberOfMorphTarget.val props) hp (by omega)).2
        ⟨hall b (List.mem_cons_self b rest), rfl⟩
      rw [hres] at this
      cases this
    | ok props1 =>
      obtain ⟨hcb, rfl⟩ := (hb props1 hp (by omega)).1 hres
      simp only [hmod]
      rw [ih (t + b.mNumberOfMorphTarget.val) _ r (by rw [rangeUpdate_length, hp]) (by omega)]
      simp [hcb]

theorem namePass_bound (duration : F32) (len : Nat) (hlen : len < 4294967296) :
    ∀ (shapes : List BlendShape) (t : Nat) (props r : List AnimatedProperty),
      props.length = len → t ≤ len →
      forEachBlendShape (nameBlendShape duration) shapes t props = .ok r →
      t + morphTargetSum shapes ≤ len := by
  intro shapes
  induction shapes with
  | nil =>
    intro t props r _ ht _
    simpa [morphTargetSum] using ht
  | cons b rest ih =>
    intro t props r hp ht hok
    rw [morphTargetSum_cons]
    unfold forEachBlendShape at hok
    cases hres : nameBlendShape duration b t props with
    | error a =>
      rw [hres] at hok
      cases hok
    | ok props1 =>
      rw [hres] at hok
      obtain ⟨hb, rfl⟩ := (nameBlendShape_ok_iff duration b t len props props1 hlen ht hp).1 hres
      have hmod : (t + b.mNumberOfMorphTarget.val) % 4294967296 =
          t + b.mNumberOfMorphTarget.val := Nat.mod_eq_of_lt (by omega)
      simp only [hmod] at hok
      have := ih (t + b.mNumberOfMorphTarget.val) _ r (by rw [rangeUpdate_length, hp]) hb hok
      omega

/-! ## Facts about the closed form -/

theorem updateShapes_length (g : BlendShape → Nat → AnimatedProperty → AnimatedProperty) :
    ∀ (shapes : List BlendShape) (t : Nat) (props : List AnimatedProperty),
      (updateShapes g shapes t props).length = props.length := by
  intro shapes
  induction shapes with
  | nil => intro t props; rfl
  | cons b rest ih =>
    intro t props
    unfold updateShapes
    rw [ih, rangeUpdate_length]

theorem updateShapes_getElem?_lt (g : BlendShape → Nat → AnimatedProperty → AnimatedProperty) :
    ∀ (shapes : List BlendShape) (t : Nat) (props : List AnimatedProperty) (i : Nat),
      i < t → (updateShapes g shapes t props)[i]? = props[i]? := by
  intro shapes
  induction shapes with
  | nil => intro t props i _; rfl
  | cons b rest ih =>
    intro t props i hi
    unfold updateShapes
    rw [ih _ _ i (by omega), rangeUpdate_getElem?]
    have hno : ¬ (t ≤ i ∧ i < t + b.mNumberOfMorphTarget.val) := by omega
    cases props[i]? with
    | none => rfl
    | some p => simp only [Option.map_some', if_neg hno]

theorem flatIndex_zero (b : BlendShape) (rest : List BlendShape) (m : Nat) :
    flatIndex (b :: rest) 0 m = m := by
  simp [flatIndex, morphTargetSum]

theorem flatIndex_succ (b : BlendShape) (rest : List BlendShape) (j m : Nat) :
    flatIndex (b :: rest) (j + 1) m = b.mNumberOfMorphTarget.val + flatIndex rest j m := by
  simp [flatIndex, morphTargetSum, Nat.add_assoc]

theorem updateShapes_getElem? (g : BlendShape → Nat → AnimatedProperty → AnimatedProperty) :
    ∀ (shapes : List BlendShape) (t : Nat) (props : List AnimatedProperty) (j m : Nat)
      (b : BlendShape), shapes[j]? = some b → m < b.mNumberOfMorphTarget.val →
      (updateShapes g shapes t props)[t + flatIndex shapes j m]? =
        (props[t + flatIndex shapes j m]?).map (g b m) := by
  intro shapes
  induction shapes with
  | nil =>
    intro t props j m b hb
    simp at hb
  | cons b0 rest ih =>
    intro t props j m b hb hm
    unfold updateShapes
    cases j with
    | zero =>
      simp only [List.getElem?_cons_zero, Option.some.injEq] at hb
      subst hb
      rw [flatIndex_zero, updateShapes_getElem?_lt g rest _ _ _ (by omega), rangeUpdate_getElem?]
      have hin : t ≤ t + m ∧ t + m < t + b0.mNumberOfMorphTarget.val := by omega
      cases props[t + m]? with
      | none => rfl
      | some p => simp [hin]
    | succ j =>
      simp only [List.getElem?_cons_succ] at hb
      rw [flatIndex_succ]
      have hidx : t + (b0.mNumberOfMorphTarget.val + flatIndex rest j m) =
          (t + b0.mNumberOfMorphTarget.val) + flatIndex rest j m := by omega
      rw [hidx, ih _ _ j m b hb hm, rangeUpdate_getElem?]
      have hno : ¬ (t ≤ t + b0.mNumberOfMorphTarget.val + flatIndex rest j m ∧
          t + b0.mNumberOfMorphTarget.val + flatIndex rest j m <
            t + b0.mNumberOfMorphTarget.val) := by omega
      cases props[t + b0.mNumberOfMorphTarget.val + flatIndex rest j m]? with
      | none => rfl
      | some p => simp only [Option.map_some', if_neg hno]

theorem flatIndex_lt_sum : ∀ (shapes : List BlendShape) (j m : Nat) (b : BlendShape),
    shapes[j]? = some b → m < b.mNumberOfMorphTarget.val →
    flatIndex shapes j m < morphTargetSum shapes := by
  intro shapes
  induction shapes with
  | nil => intro j m b hb; simp at hb
  | cons b0 rest ih =>
    intro j m b hb hm
    rw [morphTargetSum_cons]
    cases j with
    | zero =>
      simp only [List.getElem?_cons_zero, Option.some.injEq] at hb
      subst hb
      rw [flatIndex_zero]
      omega
    | succ j =>
      simp only [List.getElem?_cons_succ] at hb
      rw [flatIndex_succ]
      have := ih j m b hb hm
      omega

theorem exists_flatIndex : ∀ (shapes : List BlendShape) (i : Nat), i < morphTargetSum shapes →
    ∃ j m b, shapes[j]? = some b ∧ m < b.mNumberOfMorphTarget.val ∧ i = flatIndex shapes j m := by
  intro shapes
  induction shapes with
  | nil => intro i hi; simp [morphTargetSum] at hi
  | cons b0 rest ih =>
    intro i hi
    rw [morphTargetSum_cons] at hi
    by_cases h0 : i < b0.mNumberOfMorphTarget.val
    · exact ⟨0, i, b0, by simp, h0, (flatIndex_zero b0 rest i).symm⟩
    · obtain ⟨j, m, b, hb, hm, hidx⟩ := ih (i - b0.mNumberOfMorphTarget.val) (by omega)
      refine ⟨j + 1, m, b, by simpa using hb, hm, ?_⟩
      rw [flatIndex_succ]
      omega

theorem foldl_wrap_sum : ∀ (shapes : List BlendShape) (acc : Nat), acc < 4294967296 →
    shapes.foldl (fun acc b => (acc + b.mNumberOfMorphTarget.val) % 4294967296) acc =
      (acc + morphTargetSum shapes) % 4294967296 := by
  intro shapes
  induction shapes with
  | nil =>
    intro acc hacc
    simp only [List.foldl_nil, morphTargetSum, List.map_nil, List.sum_nil]
    omega
  | cons b rest ih =>
    intro acc _
    rw [List.foldl_cons, morphTargetSum_cons, ih _ (Nat.mod_lt _ (by decide))]
    omega

theorem numberOfAnimatedProperties_eq (shapes : List BlendShape) :
    numberOfAnimatedProperties shapes = morphTargetSum shapes % 4294967296 := by
  unfold numberOfAnimatedProperties
  rw [foldl_wrap_sum shapes 0 (by decide), Nat.zero_add]

/-! ## The loader in closed form -/

theorem flatten_ok_iff (fa : FacialAnimation) (d : AnimationDefinition) :
    flatten fa = .ok d ↔
      ∃ tl, fa.mTime[lastFrame fa]? = some tl ∧
        morphTargetSum fa.mBlendShapes < 4294967296 ∧
        (∀ b, b ∈ fa.mBlendShapes → ∀ f, f < fa.mNumberOfFrames.val → sampleable fa b f) ∧
        d = { mName := fa.mName, mDuration := durationOf tl,
              mProperties := expectedProperties fa (durationOf tl) } := by
  have hU : morphTargetSum fa.mBlendShapes % 4294967296 < 4294967296 :=
    Nat.mod_lt _ (by decide)
  unfold flatten
  cases htl : fa.mTime[lastFrame fa]? with
  | none => simp
  | some tl =>
    simp only [Option.some.injEq, exists_eq_left']
    rw [numberOfAnimatedProperties_eq]
    have hnameIff := forEachBlendShape_ok_iff (nameBlendShape (durationOf tl))
      (named (durationOf tl)) (fun _ => True) (morphTargetSum fa.mBlendShapes % 4294967296) hU
      (fun b t props r hp ht => by
        rw [nameBlendShape_ok_iff (durationOf tl) b t _ props r hU (by omega) hp]
        simp [ht])
    have hsampleIff := forEachBlendShape_ok_iff (sampleBlendShape fa (durationOf tl))
      (sampled fa (durationOf tl) fa.mNumberOfFrames.val)
      (fun b => ∀ f, f < fa.mNumberOfFrames.val → sampleable fa b f)
      (morphTargetSum fa.mBlendShapes % 4294967296) hU
      (fun b t props r hp ht => sampleBlendShape_ok_iff fa (durationOf tl) b t _ props r hU hp ht)
    cases hname : forEachBlendShape (nameBlendShape (durationOf tl)) fa.mBlendShapes 0
        (List.replicate (morphTargetSum fa.mBlendShapes % 4294967296) AnimatedProperty.fresh) with
    | error a =>
      constructor
      · intro hc
        cases hc
      · rintro ⟨hsum, -, -⟩
        have hmod : morphTargetSum fa.mBlendShapes % 4294967296 = morphTargetSum fa.mBlendShapes :=
          Nat.mod_eq_of_lt hsum
        have := (hnameIff fa.mBlendShapes 0
          (List.replicate (morphTargetSum fa.mBlendShapes % 4294967296) AnimatedProperty.fresh)
          _ (List.length_replicate _ _) (by omega)).2 ⟨fun _ _ => trivial, rfl⟩
        rw [hname] at this
        cases this
    | ok namedProps =>
      have hbound := namePass_bound (durationOf tl) _ hU fa.mBlendShapes 0 _ namedProps
        (List.length_replicate _ _) (Nat.zero_le _) hname
      have hsum : morphTargetSum fa.mBlendShapes < 4294967296 := by omega
      have hmod : morphTargetSum fa.mBlendShapes % 4294967296 = morphTargetSum fa.mBlendShapes :=
        Nat.mod_eq_of_lt hsum
      obtain ⟨-, rfl⟩ := (hnameIff fa.mBlendShapes 0 _ _ (List.length_replicate _ _)
        (by omega)).1 hname
      have hlen2 : (updateShapes (named (durationOf tl)) fa.mBlendShapes 0
          (List.replicate (morphTargetSum fa.mBlendShapes % 4294967296)
            AnimatedProperty.fresh)).length = morphTargetSum fa.mBlendShapes % 4294967296 := by
        rw [updateShapes_length, List.length_replicate]
      have h2 := fun r => hsampleIff fa.mBlendShapes 0 _ r hlen2 (by omega)
      simp only
      cases hsample : forEachBlendShape (sampleBlendShape fa (durationOf tl)) fa.mBlendShapes 0
          (updateShapes (named (durationOf tl)) fa.mBlendShapes 0
            (List.replicate (morphTargetSum fa.mBlendShapes % 4294967296)
              AnimatedProperty.fresh)) with
      | error a =>
        constructor
        · intro hc
          cases hc
        · rintro ⟨-, hall, -⟩
          have := (h2 _).2 ⟨hall, rfl⟩
          rw [hsample] at this
          cases this
      | ok sampledProps =>
        obtain ⟨hall, rfl⟩ := (h2 sampledProps).1 hsample
        simp only [Except.ok.injEq]
        constructor
        · rintro rfl
          refine ⟨hsum, hall, ?_⟩
          simp only [expectedProperties, hmod]
        · rintro ⟨-, -, rfl⟩
          simp only [expectedProperties, hmod]

theorem expectedProperties_length (fa : FacialAnimation) (duration : F32) :
    (expectedProperties fa duration).length = morphTargetSum fa.mBlendShapes := by
  simp [expectedProperties, updateShapes_length]

theorem expectedProperties_getElem? (fa : FacialAnimation) (duration : F32) (j m : Nat)
    (b : BlendShape) (hb : fa.mBlendShapes[j]? = some b) (hm : m < b.mNumberOfMorphTarget.val) :
    (expectedProperties fa duration)[flatIndex fa.mBlendShapes j m]? =
      some (expectedProperty fa duration b m) := by
  have hlt := flatIndex_lt_sum fa.mBlendShapes j m b hb hm
  have h1 := updateShapes_getElem? (sampled fa duration fa.mNumberOfFrames.val) fa.mBlendShapes 0
    (updateShapes (named duration) fa.mBlendShapes 0
      (List.replicate (morphTargetSum fa.mBlendShapes) AnimatedProperty.fresh)) j m b hb hm
  have h2 := updateShapes_getElem? (named duration) fa.mBlendShapes 0
    (List.replicate (morphTargetSum fa.mBlendShapes) AnimatedProperty.fresh) j m b hb hm
  rw [Nat.zero_add] at h1 h2
  unfold expectedProperties
  rw [h1, h2, List.getElem?_replicate_of_lt hlt]
  rfl

theorem LoadFacialAnimation_ok_iff (url : String) (fa : FacialAnimation)
    (d : AnimationDefinition) :
    LoadFacialAnimation url false (some fa) = .ok d ↔ flatten fa = .ok d := by
  cases h : flatten fa <;> simp [LoadFacialAnimation, h]

theorem LoadFacialAnimation_error_iff (url : String) (fa : FacialAnimation) (a : Access) :
    LoadFacialAnimation url false (some fa) = .error (.outOfRange a) ↔ flatten fa = .error a := by
  cases h : flatten fa <;> simp [LoadFacialAnimation, h]

/-- Once the text is loaded and parsed, the loader throws no exception. -/
theorem LoadFacialAnimation_not_exception (url : String) (fa : FacialAnimation)
    (message : String) :
    LoadFacialAnimation url false (some fa) ≠ .error (.exception message) := by
  cases h : flatten fa <;> simp [LoadFacialAnimation, h]

theorem exists_getElem? {α : Type} (l : List α) (i : Nat) (h : i < l.length) :
    ∃ x, l[i]? = some x :=
  ⟨l[i], List.getElem?_eq_getElem h⟩

theorem lastFrame_of_pos (fa : FacialAnimation) (h : 1 ≤ fa.mNumberOfFrames.val) :
    lastFrame fa = fa.mNumberOfFrames.val - 1 := by
  have := fa.mNumberOfFrames.isLt
  unfold lastFrame
  omega

theorem mem_expectedProperties (fa : FacialAnimation) (duration : F32) (p : AnimatedProperty)
    (hp : p ∈ expectedProperties fa duration) :
    ∃ (j m : Nat) (b : BlendShape), fa.mBlendShapes[j]? = some b ∧
      m < b.mNumberOfMorphTarget.val ∧ p = expectedProperty fa duration b m := by
  obtain ⟨i, hi⟩ := List.mem_iff_getElem?.1 hp
  have hlt : i < morphTargetSum fa.mBlendShapes := by
    rw [← expectedProperties_length fa duration]
    obtain ⟨h, -⟩ := List.getElem?_eq_some.1 hi
    exact h
  obtain ⟨j, m, b, hb, hm, rfl⟩ := exists_flatIndex fa.mBlendShapes i hlt
  rw [expectedProperties_getElem? fa duration j m b hb hm] at hi
  exact ⟨j, m, b, hb, hm, (Option.some.inj hi).symm⟩

theorem expectedProperty_keyFrames (fa : FacialAnimation) (duration : F32) (b : BlendShape)
    (m : Nat) :
    (expectedProperty fa duration b m).mKeyFrames =
      trackOf fa duration b m fa.mNumberOfFrames.val := by
  simp [expectedProperty, sampled, named, AnimatedProperty.fresh]

theorem trackOf_getElem? (fa : FacialAnimation) (duration : F32) (b : BlendShape)
    (m count f : Nat) (hf : f < count) :
    (trackOf fa duration b m count)[f]? = some (progressAt fa duration f, keyAt b f m) := by
  simp [trackOf, List.getElem?_range hf]

theorem trackOf_length (fa : FacialAnimation) (duration : F32) (b : BlendShape)
    (m count : Nat) : (trackOf fa duration b m count).length = count := by
  simp [trackOf]

/-- Every frame of a valid animation can be sampled for each of its blend shapes. -/
theorem sampleable_of_valid (fa : FacialAnimation) (hv : fa.Valid) (b : BlendShape)
    (hb : b ∈ fa.mBlendShapes) (f : Nat) (hf : f < fa.mNumberOfFrames.val) :
    sampleable fa b f := by
  obtain ⟨_, htime, hkeys⟩ := hv
  obtain ⟨hrows, hrow⟩ := hkeys b hb
  constructor
  · exact exists_getElem? fa.mTime f (by omega)
  · intro m hm
    obtain ⟨row, hr⟩ := exists_getElem? b.mKeys f (by omega)
    have hlen := hrow row (List.mem_iff_getElem?.2 ⟨f, hr⟩)
    obtain ⟨v, hv⟩ := exists_getElem? row m (by omega)
    exact ⟨row, v, hr, hv⟩

theorem sampleable_of_keysReadable (fa : FacialAnimation) (b : BlendShape) (f : Nat)
    (hf : f < fa.mNumberOfFrames.val) (htime : fa.mNumberOfFrames.val ≤ fa.mTime.length)
    (hk : b.keysReadable fa.mNumberOfFrames.val) : sampleable fa b f := by
  obtain ⟨row, hrow, hlen⟩ := hk f hf
  constructor
  · exact exists_getElem? fa.mTime f (by omega)
  · intro m hm
    obtain ⟨v, hv⟩ := exists_getElem? row m (by omega)
    exact ⟨row, v, hrow, hv⟩

/-- The loader returns a definition as soon as every access is inside its vector
and the 32-bit counters do not wrap. -/
theorem LoadFacialAnimation_returns (url : String) (fa : FacialAnimation)
    (hframes : 1 ≤ fa.mNumberOfFrames.val) (htime : fa.mNumberOfFrames.val ≤ fa.mTime.length)
    (hkeys : ∀ b, b ∈ fa.mBlendShapes → b.keysReadable fa.mNumberOfFrames.val)
    (hsum : morphTargetSum fa.mBlendShapes < 4294967296) :
    ∃ d, LoadFacialAnimation url false (some fa) = .ok d := by
  have hlast := lastFrame_of_pos fa hframes
  obtain ⟨tl, htl⟩ := exists_getElem? fa.mTime (lastFrame fa) (by omega)
  refine ⟨_, (LoadFacialAnimation_ok_iff url fa _).2 ((flatten_ok_iff fa _).2
    ⟨tl, htl, hsum, ?_, rfl⟩)⟩
  intro b hb f hf
  exact sampleable_of_keysReadable fa b f hf htime (hkeys b hb)

theorem keysReadable_of_valid (fa : FacialAnimation) (hv : fa.Valid) (b : BlendShape)
    (hb : b ∈ fa.mBlendShapes) : b.keysReadable fa.mNumberOfFrames.val := by
  obtain ⟨_, _, hkeys⟩ := hv
  obtain ⟨hrows, hrow⟩ := hkeys b hb
  intro f hf
  obtain ⟨row, hr⟩ := exists_getElem? b.mKeys f (by omega)
  have hlen := hrow row (List.mem_iff_getElem?.2 ⟨f, hr⟩)
  exact ⟨row, hr, by omega⟩

/-- A valid animation whose morph-target counts sum to less than `2 ^ 32` is
loaded: the call returns a definition. -/
theorem LoadFacialAnimation_returns_of_valid (url : String) (fa : FacialAnimation)
    (hv : fa.Valid) (hsum : morphTargetSum fa.mBlendShapes < 4294967296) :
    ∃ d, LoadFacialAnimation url false (some fa) = .ok d :=
  LoadFacialAnimation_returns url fa hv.1 (by rw [hv.2.1])
    (keysReadable_of_valid fa hv) hsum

/-! ## Only the used fields matter -/

theorem used_eq (b1 b2 : BlendShape) (h : b1.used = b2.used) :
    b1.mKeys = b2.mKeys ∧ b1.mNodeName = b2.mNodeName ∧
      b1.mNumberOfMorphTarget = b2.mNumberOfMorphTarget := by
  simpa [BlendShape.used] using h

theorem nameBlendShape_congr (duration : F32) (b1 b2 : BlendShape) (h : b1.used = b2.used) :
    nameBlendShape duration b1 = nameBlendShape duration b2 := by
  obtain ⟨_, h2, h3⟩ := used_eq b1 b2 h
  funext t props
  have hstep : setWeightName duration b1 t = setWeightName duration b2 t := by
    funext ps m
    simp only [setWeightName, named, h2]
  simp only [nameBlendShape, hstep, h3]

theorem sampleBlendShape_congr (fa1 fa2 : FacialAnimation) (duration : F32)
    (b1 b2 : BlendShape) (hframes : fa1.mNumberOfFrames = fa2.mNumberOfFrames)
    (htime : fa1.mTime = fa2.mTime) (h : b1.used = b2.used) :
    sampleBlendShape fa1 duration b1 = sampleBlendShape fa2 duration b2 := by
  obtain ⟨h1, _, h3⟩ := used_eq b1 b2 h
  funext t props
  have hadd : addKeyFrame b1 = addKeyFrame b2 := by
    funext f progress tt ps m
    simp only [addKeyFrame, h1]
  have hstep : sampleFrame fa1 duration b1 t = sampleFrame fa2 duration b2 t := by
    funext ps f
    simp only [sampleFrame, htime, hadd, h3]
  simp only [sampleBlendShape, hstep, hframes]

theorem forEachBlendShape_congr
    (body1 body2 : BlendShape → Nat → List AnimatedProperty →
      Except Access (List AnimatedProperty))
    (hbody : ∀ b1 b2 : BlendShape, b1.used = b2.used → body1 b1 = body2 b2) :
    ∀ (s1 s2 : List BlendShape), s1.map BlendShape.used = s2.map BlendShape.used →
      ∀ (t : Nat) (props : List AnimatedProperty),
        forEachBlendShape body1 s1 t props = forEachBlendShape body2 s2 t props := by
  intro s1
  induction s1 with
  | nil =>
    intro s2 hs t props
    cases s2 with
    | nil => rfl
    | cons b2 r2 => simp at hs
  | cons b1 r1 ih =>
    intro s2 hs t props
    cases s2 with
    | nil => simp at hs
    | cons b2 r2 =>
      simp only [List.map_cons, List.cons.injEq] at hs
      obtain ⟨hb, hr⟩ := hs
      obtain ⟨_, _, h3⟩ := used_eq b1 b2 hb
      unfold forEachBlendShape
      rw [hbody b1 b2 hb, h3]
      cases body2 b2 t props with
      | error a => rfl
      | ok props1 => exact ih r2 hr _ _

theorem morphTargetSum_congr (s1 s2 : List BlendShape)
    (hs : s1.map BlendShape.used = s2.map BlendShape.used) :
    morphTargetSum s1 = morphTargetSum s2 := by
  have h1 : ∀ s : List BlendShape, morphTargetSum s =
      ((s.map BlendShape.used).map (fun u => u.2.2.val)).sum := by
    intro s
    simp [morphTargetSum, BlendShape.used, Function.comp_def]
  rw [h1, h1, hs]

theorem flatten_congr (fa1 fa2 : FacialAnimation) (hname : fa1.mName = fa2.mName)
    (hframes : fa1.mNumberOfFrames = fa2.mNumberOfFrames) (htime : fa1.mTime = fa2.mTime)
    (hshapes : fa1.mBlendShapes.map BlendShape.used = fa2.mBlendShapes.map BlendShape.used) :
    flatten fa1 = flatten fa2 := by
  have hsum := morphTargetSum_congr _ _ hshapes
  have hn := fun d => forEachBlendShape_congr (nameBlendShape d) (nameBlendShape d)
    (nameBlendShape_congr d) _ _ hshapes
  have hs := fun d => forEachBlendShape_congr (sampleBlendShape fa1 d) (sampleBlendShape fa2 d)
    (fun b1 b2 h => sampleBlendShape_congr fa1 fa2 d b1 b2 hframes htime h) _ _ hshapes
  unfold flatten
  simp only [lastFrame, numberOfAnimatedProperties_eq, hsum, hname, hframes, htime, hn, hs]

/-! ## The returned definition -/

/-- The definition the loader returns, in closed form. -/
theorem LoadFacialAnimation_result (url : String) (fa : FacialAnimation)
    (d : AnimationDefinition) (h : LoadFacialAnimation url false (some fa) = .ok d) :
    ∃ tl, fa.mTime[lastFrame fa]? = some tl ∧
      morphTargetSum fa.mBlendShapes < 4294967296 ∧
      (∀ b, b ∈ fa.mBlendShapes → ∀ f, f < fa.mNumberOfFrames.val → sampleable fa b f) ∧
      d = { mName := fa.mName, mDuration := durationOf tl,
            mProperties := expectedProperties fa (durationOf tl) } :=
  (flatten_ok_iff fa d).1 ((LoadFacialAnimation_ok_iff url fa d).1 h)

/-- The property of morph target `m` of the blend shape with index `j`, in every
definition the loader returns. -/
theorem property_at_flatIndex (url : String) (fa : FacialAnimation) (d : AnimationDefinition)
    (h : LoadFacialAnimation url false (some fa) = .ok d) (j m : Nat) (b : BlendShape)
    (hb : fa.mBlendShapes[j]? = some b) (hm : m < b.mNumberOfMorphTarget.val) :
    d.mProperties[flatIndex fa.mBlendShapes j m]? =
      some (expectedProperty fa d.mDuration b m) := by
  obtain ⟨tl, -, -, -, rfl⟩ := LoadFacialAnimation_result url fa d h
  exact expectedProperties_getElem? fa (durationOf tl) j m b hb hm

theorem expectedProperty_name (fa : FacialAnimation) (duration : F32) (b : BlendShape)
    (m : Nat) : (expectedProperty fa duration b m).mPropertyName = weightName m := rfl

theorem expectedProperty_node (fa : FacialAnimation) (duration : F32) (b : BlendShape)
    (m : Nat) : (expectedProperty fa duration b m).mNodeName = b.mNodeName := rfl

theorem expectedProperty_period (fa : FacialAnimation) (duration : F32) (b : BlendShape)
    (m : Nat) : (expectedProperty fa duration b m).mTimePeriod.durationSeconds = duration := rfl

/-- The duration of a returned definition comes from the time of the last frame. -/
theorem duration_of_result (url : String) (fa : FacialAnimation) (d : AnimationDefinition)
    (hframes : 1 ≤ fa.mNumberOfFrames.val)
    (h : LoadFacialAnimation url false (some fa) = .ok d) :
    ∃ t, fa.mTime[fa.mNumberOfFrames.val - 1]? = some t ∧ d.mDuration = durationOf t := by
  obtain ⟨tl, htl, -, -, rfl⟩ := LoadFacialAnimation_result url fa d h
  rw [lastFrame_of_pos fa hframes] at htl
  exact ⟨tl, htl, rfl⟩

theorem formatD_of_lt (v : Nat) (h : v < 2147483648) : formatD v = Nat.repr v := by
  simp [formatD, h]

/-- In every returned definition the property at the flattened position of
`(b, m)` carries the node name of `b`, and for `m < 2 ^ 31` its path is the base
identifier followed by the bracketed decimal rendering of `m`. -/
theorem property_name_below_sign_bit (url : String) (fa : FacialAnimation)
    (d : AnimationDefinition) (h : LoadFacialAnimation url false (some fa) = .ok d)
    (j m : Nat) (b : BlendShape) (hb : fa.mBlendShapes[j]? = some b)
    (hm : m < b.mNumberOfMorphTarget.val) (hsmall : m < 2147483648) :
    ∃ p, d.mProperties[flatIndex fa.mBlendShapes j m]? = some p ∧
      p.mNodeName = b.mNodeName ∧
      p.mPropertyName = WEIGHTS_UNIFORM ++ "[" ++ Nat.repr m ++ "]" := by
  refine ⟨_, property_at_flatIndex url fa d h j m b hb hm, rfl, ?_⟩
  rw [expectedProperty_name, weightName, formatD_of_lt m hsmall]

/-- Scenario D: with morph-target counts 1 and 2 the properties come in the order
`shape0.m0, shape1.m0, shape1.m1`. -/
theorem scenarioD_order :
    (LoadFacialAnimation "face.json" false (some scenarioD)).toOption.map
      (fun d => d.mProperties.map (fun p => (p.mNodeName, p.mPropertyName))) =
    some [("shape0", "uWeight[0]"), ("shape1", "uWeight[0]"), ("shape1", "uWeight[1]")] := by
  rfl

theorem trackOf_getLast? (fa : FacialAnimation) (duration : F32) (b : BlendShape)
    (m count : Nat) (hc : 1 ≤ count) :
    (trackOf fa duration b m count).getLast? =
      some (progressAt fa duration (count - 1), keyAt b (count - 1) m) := by
  rw [List.getLast?_eq_getElem?, trackOf_length, trackOf_getElem? fa duration b m count _
    (by omega)]

/-! ## Number of properties -/

/-- C1: for every valid raw facial animation, the number of properties of the
animation definition that `LoadFacialAnimation` returns is the sum of the
morph-target counts of the blend shapes; and a definition is returned whenever
that sum is below `2 ^ 32`. -/
theorem property_count_eq_sum (url : String) (fa : FacialAnimation) (hv : fa.Valid) :
    (∀ d, LoadFacialAnimation url false (some fa) = .ok d →
      d.mProperties.length = (fa.mBlendShapes.map (fun b => b.mNumberOfMorphTarget.val)).sum) ∧
    ((fa.mBlendShapes.map (fun b => b.mNumberOfMorphTarget.val)).sum < 4294967296 →
      ∃ d, LoadFacialAnimation url false (some fa) = .ok d) := by
  constructor
  · intro d h
    obtain ⟨tl, -, -, -, rfl⟩ := LoadFacialAnimation_result url fa d h
    exact expectedProperties_length fa (durationOf tl)
  · intro hsum
    exact LoadFacialAnimation_returns_of_valid url fa hv hsum

/-- Scenario A is valid, is loaded into the definition the spec gives, and that
definition has 2 properties, the morph-target count of its blend shape. -/
theorem property_count_eq_sum_witness :
    scenarioA.Valid ∧
    LoadFacialAnimation "face.json" false (some scenarioA) = .ok scenarioAResult ∧
    scenarioAResult.mProperties.length = 2 ∧
    (scenarioA.mBlendShapes.map (fun b => b.mNumberOfMorphTarget.val)).sum = 2 ∧
    ((∀ d, LoadFacialAnimation "face.json" false (some scenarioA) = .ok d →
      d.mProperties.length =
        (scenarioA.mBlendShapes.map (fun b => b.mNumberOfMorphTarget.val)).sum) ∧
    ((scenarioA.mBlendShapes.map (fun b => b.mNumberOfMorphTarget.val)).sum < 4294967296 →
      ∃ d, LoadFacialAnimation "face.json" false (some scenarioA) = .ok d)) :=
  ⟨by unfold FacialAnimation.Valid; decide, rfl, rfl, rfl,
    property_count_eq_sum "face.json" scenarioA (by unfold FacialAnimation.Valid; decide)⟩

/-! ## Node names and property paths -/

/-- C2, at the failing input: for the valid animation whose blend shape has
`2 ^ 31 + 1` morph targets the loader returns a definition, and in it the property
of morph target `2147483648` has the node name of the blend shape and the path
`uWeight[-2147483648]`: `%d` prints the index as a signed `int`, not its decimal
rendering `2147483648`. -/
theorem property_path_signed_rendering :
    manyMorphTargets.Valid ∧
    ∃ d p, LoadFacialAnimation "face.json" false (some manyMorphTargets) = .ok d ∧
      d.mProperties[flatIndex manyMorphTargets.mBlendShapes 0 2147483648]? = some p ∧
      p.mNodeName = wideShape.mNodeName ∧
      p.mPropertyName = "uWeight[-2147483648]" ∧
      p.mPropertyName ≠ WEIGHTS_UNIFORM ++ "[" ++ Nat.repr 2147483648 ++ "]" := by
  have hvalid : manyMorphTargets.Valid := by
    refine ⟨by decide, rfl, ?_⟩
    intro b hb
    have hb2 : b = wideShape := List.mem_singleton.1 hb
    subst hb2
    refine ⟨rfl, ?_⟩
    intro row hrow
    have hr : row = List.replicate 2147483649 F32.zero := List.mem_singleton.1 hrow
    rw [hr, List.length_replicate]
    rfl
  have hsum : morphTargetSum manyMorphTargets.mBlendShapes < 4294967296 := by decide
  obtain ⟨d, hd⟩ := LoadFacialAnimation_returns_of_valid "face.json" manyMorphTargets
    hvalid hsum
  have hp := property_at_flatIndex "face.json" manyMorphTargets d hd 0 2147483648 wideShape
    rfl (by decide)
  have hname : weightName 2147483648 = "uWeight[-2147483648]" := by decide
  refine ⟨hvalid, d, _, hd, hp, rfl, ?_, ?_⟩
  · rw [expectedProperty_name, hname]
  · rw [expectedProperty_name, hname]
    decide

/-! ## Key-frame tracks -/

/-- C3: for every valid raw facial animation, blend shape `b` (at index `j`) and
morph-target index `m` below its count, the key-frame track of the property at the
flattened position of `(b, m)` has `frameCount` entries, and its `f`-th entry is the
pair of the progress `MILLISECONDS_TO_SECONDS * time[f] / duration` (in `float`
arithmetic) and the weight `keys[f][m]` of `b`; this holds in every definition the
loader returns, and it returns one whenever the morph-target counts sum to less
than `2 ^ 32`. -/
theorem track_entries (url : String) (fa : FacialAnimation) (hv : fa.Valid) :
    (∀ d, LoadFacialAnimation url false (some fa) = .ok d →
      ∀ (j m : Nat) (b : BlendShape), fa.mBlendShapes[j]? = some b →
        m < b.mNumberOfMorphTarget.val →
        ∃ p, d.mProperties[flatIndex fa.mBlendShapes j m]? = some p ∧
          p.mKeyFrames.length = fa.mNumberOfFrames.val ∧
          ∀ f, f < fa.mNumberOfFrames.val →
            ∃ t row v, fa.mTime[f]? = some t ∧ b.mKeys[f]? = some row ∧ row[m]? = some v ∧
              p.mKeyFrames[f]? =
                some (F32.div (F32.mul MILLISECONDS_TO_SECONDS (F32.ofUInt32 t.val))
                  d.mDuration, v)) ∧
    ((fa.mBlendShapes.map (fun b => b.mNumberOfMorphTarget.val)).sum < 4294967296 →
      ∃ d, LoadFacialAnimation url false (some fa) = .ok d) := by
  constructor
  · intro d h j m b hb hm
    have hp := property_at_flatIndex url fa d h j m b hb hm
    have hmem : b ∈ fa.mBlendShapes := List.mem_iff_getElem?.2 ⟨j, hb⟩
    refine ⟨_, hp, ?_, ?_⟩
    · rw [expectedProperty_keyFrames, trackOf_length]
    · intro f hf
      obtain ⟨⟨t, ht⟩, hkey⟩ := sampleable_of_valid fa hv b hmem f hf
      obtain ⟨row, v, hrow, hval⟩ := hkey m hm
      refine ⟨t, row, v, ht, hrow, hval, ?_⟩
      rw [expectedProperty_keyFrames, trackOf_getElem? fa d.mDuration b m _ f hf,
        keyAt_of_readable b f m row v hrow hval]
      simp [progressAt, ht, progressOf]
  · intro hsum
    exact LoadFacialAnimation_returns_of_valid url fa hv hsum

/-- Scenario A is valid and is loaded into the definition the spec gives, with the
tracks `[(0.0, 0.0), (1.0, 1.0)]` and `[(0.0, 0.0), (1.0, 0.5)]`. -/
theorem track_entries_witness :
    scenarioA.Valid ∧
    LoadFacialAnimation "face.json" false (some scenarioA) = .ok scenarioAResult ∧
    (scenarioAResult.mProperties.map (fun p => p.mKeyFrames) =
      [[(F32.zero, F32.zero), (F32.one, F32.one)], [(F32.zero, F32.zero), (F32.one, F32.half)]]) ∧
    ((∀ d, LoadFacialAnimation "face.json" false (some scenarioA) = .ok d →
      ∀ (j m : Nat) (b : BlendShape), scenarioA.mBlendShapes[j]? = some b →
        m < b.mNumberOfMorphTarget.val →
        ∃ p, d.mProperties[flatIndex scenarioA.mBlendShapes j m]? = some p ∧
          p.mKeyFrames.length = scenarioA.mNumberOfFrames.val ∧
          ∀ f, f < scenarioA.mNumberOfFrames.val →
            ∃ t row v, scenarioA.mTime[f]? = some t ∧ b.mKeys[f]? = some row ∧
              row[m]? = some v ∧
              p.mKeyFrames[f]? =
                some (F32.div (F32.mul MILLISECONDS_TO_SECONDS (F32.ofUInt32 t.val))
                  d.mDuration, v)) ∧
    ((scenarioA.mBlendShapes.map (fun b => b.mNumberOfMorphTarget.val)).sum < 4294967296 →
      ∃ d, LoadFacialAnimation "face.json" false (some scenarioA) = .ok d)) :=
  ⟨by unfold FacialAnimation.Valid; decide, rfl, rfl,
    track_entries "face.json" scenarioA (by unfold FacialAnimation.Valid; decide)⟩

/-! ## Duration -/

/-- C4 fails as stated: for one frame at 5 ms the duration is the `float`
`10737419 * 2 ^ (-31)`, which is neither the number `5 / 1000` nor the `float`
quotient of 5 by 1000. -/
theorem duration_not_exact_quotient :
    1 ≤ fiveMilliseconds.mNumberOfFrames.val ∧
    fiveMilliseconds.mTime.length = fiveMilliseconds.mNumberOfFrames.val ∧
    fiveMilliseconds.mTime[fiveMilliseconds.mNumberOfFrames.val - 1]? = some 5 ∧
    LoadFacialAnimation "face.json" false (some fiveMilliseconds) = .ok fiveMillisecondsResult ∧
    fiveMillisecondsResult.mDuration.toRat ≠ some (5 / 1000) ∧
    fiveMillisecondsResult.mDuration ≠ F32.div (F32.ofUInt32 5) (F32.ofUInt32 1000) := by
  refine ⟨by decide, rfl, rfl, rfl, ?_, by decide⟩
  simp only [fiveMillisecondsResult, F32.toRat, ne_eq, Option.some.injEq]
  norm_num

/-- C4, amended: when `frameCount ≥ 1` and there is one time per frame, the
duration of the returned definition is the `float` product
`MILLISECONDS_TO_SECONDS * static_cast<float>(time[frameCount - 1])`, a finite
`float` whose value is `time[frameCount - 1] / 1000` up to a relative error of
`2 ^ (-22)`, and the time period of every property carries that same duration. -/
theorem duration_eq_float_product (url : String) (fa : FacialAnimation)
    (d : AnimationDefinition) (hframes : 1 ≤ fa.mNumberOfFrames.val)
    (_htime : fa.mTime.length = fa.mNumberOfFrames.val)
    (h : LoadFacialAnimation url false (some fa) = .ok d) :
    ∃ t, fa.mTime[fa.mNumberOfFrames.val - 1]? = some t ∧
      d.mDuration = F32.mul MILLISECONDS_TO_SECONDS (F32.ofUInt32 t.val) ∧
      (∃ q : ℚ, d.mDuration.toRat = some q ∧
        |q - (t.val : ℚ) / 1000| ≤ (t.val : ℚ) / 1000 / 4194304) ∧
      ∀ p, p ∈ d.mProperties → p.mTimePeriod.durationSeconds = d.mDuration := by
  obtain ⟨t, ht, hd⟩ := duration_of_result url fa d hframes h
  refine ⟨t, ht, hd, ?_, ?_⟩
  · rw [hd]
    exact durationOf_error t
  · intro p hp
    obtain ⟨tl, -, -, -, rfl⟩ := LoadFacialAnimation_result url fa d h
    obtain ⟨j, m, b, -, -, rfl⟩ := mem_expectedProperties fa _ p hp
    rfl

/-- One frame at 5 ms: the duration is the `float` product of `0.001f` and `5.0f`,
it is within `2 ^ (-22)` of `5 / 1000` in relative terms, and the only property
carries it. -/
theorem duration_eq_float_product_witness :
    1 ≤ fiveMilliseconds.mNumberOfFrames.val ∧
    fiveMilliseconds.mTime.length = fiveMilliseconds.mNumberOfFrames.val ∧
    LoadFacialAnimation "face.json" false (some fiveMilliseconds) = .ok fiveMillisecondsResult ∧
    ∃ t, fiveMilliseconds.mTime[fiveMilliseconds.mNumberOfFrames.val - 1]? = some t ∧
      fiveMillisecondsResult.mDuration =
        F32.mul MILLISECONDS_TO_SECONDS (F32.ofUInt32 t.val) ∧
      (∃ q : ℚ, fiveMillisecondsResult.mDuration.toRat = some q ∧
        |q - (t.val : ℚ) / 1000| ≤ (t.val : ℚ) / 1000 / 4194304) ∧
      ∀ p, p ∈ fiveMillisecondsResult.mProperties →
        p.mTimePeriod.durationSeconds = fiveMillisecondsResult.mDuration :=
  ⟨by decide, rfl, rfl,
    duration_eq_float_product "face.json" fiveMilliseconds fiveMillisecondsResult
      (by decide) rfl rfl⟩

/-! ## Progress of the last key frame -/

/-- C5 fails as stated: for a valid animation whose only frame is at 0 ms the
duration is `0.0f` and the progress of the last (and only) track entry is
`0.0f / 0.0f`, which is `NaN`, not `1.0f`. -/
theorem last_progress_nan_at_zero_time :
    zeroDuration.Valid ∧
    LoadFacialAnimation "face.json" false (some zeroDuration) = .ok zeroDurationResult ∧
    zeroDurationResult.mProperties.map (fun p => (p.mKeyFrames.getLast?).map Prod.fst) =
      [some F32.nan] ∧
    F32.nan ≠ F32.one :=
  ⟨by unfold FacialAnimation.Valid; decide, rfl, rfl, by decide⟩

/-- C5, amended: for every valid raw facial animation whose last frame time is
above 0, in every property of the returned definition the progress of the last
track entry is `1.0f`. -/
theorem last_progress_eq_one (url : String) (fa : FacialAnimation) (d : AnimationDefinition)
    (t : uint32_t) (hv : fa.Valid) (ht : fa.mTime[fa.mNumberOfFrames.val - 1]? = some t)
    (hpos : 0 < t.val) (h : LoadFacialAnimation url false (some fa) = .ok d) :
    ∀ p, p ∈ d.mProperties → (p.mKeyFrames.getLast?).map Prod.fst = some F32.one := by
  intro p hp
  have hframes : 1 ≤ fa.mNumberOfFrames.val := hv.1
  obtain ⟨t', ht', hd⟩ := duration_of_result url fa d hframes h
  rw [ht] at ht'
  cases ht'
  obtain ⟨tl, -, -, -, rfl⟩ := LoadFacialAnimation_result url fa d h
  obtain ⟨j, m, b, -, -, rfl⟩ := mem_expectedProperties fa _ p hp
  simp only at hd
  rw [expectedProperty_keyFrames, trackOf_getLast? fa _ b m _ hframes]
  simp only [Option.map_some', Option.some.injEq, progressAt, ht, hd, progressOf]
  exact progress_last_eq_one t.val hpos t.isLt

/-- Scenario A is valid, its last frame is at 500 ms, and both tracks end at
progress `1.0f`. -/
theorem last_progress_eq_one_witness :
    scenarioA.Valid ∧
    scenarioA.mTime[scenarioA.mNumberOfFrames.val - 1]? = some 500 ∧
    0 < (500 : uint32_t).val ∧
    LoadFacialAnimation "face.json" false (some scenarioA) = .ok scenarioAResult ∧
    ∀ p, p ∈ scenarioAResult.mProperties →
      (p.mKeyFrames.getLast?).map Prod.fst = some F32.one :=
  ⟨by unfold FacialAnimation.Valid; decide, rfl, by decide, rfl,
    last_progress_eq_one "face.json" scenarioA scenarioAResult 500
      (by unfold FacialAnimation.Valid; decide) rfl (by decide) rfl⟩

/-! ## Zero frames -/

/-- With `frames` 0 and a time array of at most `2 ^ 32 - 1` entries the loader
validates nothing and throws no exception; the first element access it reaches is
`time[4294967295]` (the index `0 - 1` in `uint32_t`, source line 123), outside the
vector. -/
theorem zero_frames_reads_time_out_of_range (url : String) (fa : FacialAnimation)
    (hframes : fa.mNumberOfFrames.val = 0) (htime : fa.mTime.length ≤ 4294967295) :
    LoadFacialAnimation url false (some fa) = .error (.outOfRange (.time 4294967295)) := by
  apply (LoadFacialAnimation_error_iff url fa _).2
  have hl : lastFrame fa = 4294967295 := by
    unfold lastFrame
    rw [hframes]
  unfold flatten
  rw [hl, List.getElem?_eq_none htime]

/-- C6, at the failing inputs: with `frames` 0 nothing is validated and no exception
is thrown.  The loader indexes the time array at `0 - 1 = 4294967295`: in scenario B
(no times) it reaches that access outside the vector, which is undefined behaviour,
and with `2 ^ 32` times it reads the last of them and returns a definition. -/
theorem zero_frames_not_rejected :
    scenarioB.mNumberOfFrames = 0 ∧
    LoadFacialAnimation "face.json" false (some scenarioB) =
      .error (.outOfRange (.time 4294967295)) ∧
    (∀ message,
      LoadFacialAnimation "face.json" false (some scenarioB) ≠ .error (.exception message)) ∧
    zeroFramesLongTime.mNumberOfFrames = 0 ∧
    LoadFacialAnimation "face.json" false (some zeroFramesLongTime) =
      .ok { mName := "long", mDuration := F32.half, mProperties := [] } := by
  refine ⟨rfl, rfl, LoadFacialAnimation_not_exception _ _, rfl, ?_⟩
  apply (LoadFacialAnimation_ok_iff _ _ _).2
  apply (flatten_ok_iff _ _).2
  refine ⟨500, ?_, by decide, ?_, rfl⟩
  · have hl : lastFrame zeroFramesLongTime = 4294967295 := by decide
    rw [hl]
    exact List.getElem?_replicate_of_lt (by decide)
  · intro b hb
    cases hb

/-! ## Short rows of keys -/

/-- When some blend shape has a row `keys[f]`, `f < frameCount`, with fewer
entries than its morph-target count, the loader validates no row length and throws
no exception: the call reaches an element access outside a vector. -/
theorem short_row_out_of_range (url : String) (fa : FacialAnimation)
    (b : BlendShape) (f : Nat) (row : List F32) (hb : b ∈ fa.mBlendShapes)
    (hf : f < fa.mNumberOfFrames.val) (hrow : b.mKeys[f]? = some row)
    (hshort : row.length < b.mNumberOfMorphTarget.val) :
    ∃ a, LoadFacialAnimation url false (some fa) = .error (.outOfRange a) := by
  cases hres : flatten fa with
  | error a => exact ⟨a, (LoadFacialAnimation_error_iff url fa a).2 hres⟩
  | ok d =>
    obtain ⟨tl, -, -, hall, -⟩ := (flatten_ok_iff fa d).1 hres
    obtain ⟨row', v, hrow', hv⟩ := (hall b hb f hf).2 row.length hshort
    rw [hrow] at hrow'
    cases hrow'
    rw [List.getElem?_eq_none (Nat.le_refl _)] at hv
    cases hv

/-- C7, at the failing input: in scenario C (`morphtarget` 3, one frame, a row of 2
keys) nothing is validated and no exception is thrown; the first element access
outside a vector that the loader reaches is the read `keys[0][2]`, one past the end
of the row, which is undefined behaviour. -/
theorem short_row_read_past_end :
    (∃ b row, b ∈ scenarioC.mBlendShapes ∧ 0 < scenarioC.mNumberOfFrames.val ∧
      b.mKeys[0]? = some row ∧ row.length = 2 ∧ b.mNumberOfMorphTarget.val = 3) ∧
    LoadFacialAnimation "face.json" false (some scenarioC) =
      .error (.outOfRange (.key 0 2)) ∧
    (∀ message,
      LoadFacialAnimation "face.json" false (some scenarioC) ≠ .error (.exception message)) :=
  ⟨⟨_, _, List.mem_singleton.2 rfl, by decide, rfl, rfl, rfl⟩, rfl,
    LoadFacialAnimation_not_exception _ _⟩

/-! ## Zero duration -/

/-- C8 fails as stated: for a valid animation whose only frame is at 0 ms no
exception is thrown; the loader returns a definition whose duration is `0.0f`. -/
theorem zero_duration_returned :
    1 ≤ zeroDuration.mNumberOfFrames.val ∧
    zeroDuration.mTime[zeroDuration.mNumberOfFrames.val - 1]? = some 0 ∧
    LoadFacialAnimation "face.json" false (some zeroDuration) = .ok zeroDurationResult ∧
    zeroDurationResult.mDuration = F32.zero ∧
    zeroDurationResult.mDuration.isPositive = false :=
  ⟨by decide, rfl, rfl, rfl, rfl⟩

/-- C8, amended: `LoadFacialAnimation` does not check the duration and throws no
exception for it.  When `frameCount ≥ 1` and it returns a definition, the duration
of that definition is strictly positive exactly when the last frame time is above
0, and it is `0.0f` when the last frame time is 0. -/
theorem duration_positive_iff (url : String) (fa : FacialAnimation) (t : uint32_t)
    (hframes : 1 ≤ fa.mNumberOfFrames.val)
    (ht : fa.mTime[fa.mNumberOfFrames.val - 1]? = some t) :
    (∀ message, LoadFacialAnimation url false (some fa) ≠ .error (.exception message)) ∧
    ∀ d, LoadFacialAnimation url false (some fa) = .ok d →
      (d.mDuration.isPositive = true ↔ 0 < t.val) ∧ (t.val = 0 → d.mDuration = F32.zero) := by
  refine ⟨LoadFacialAnimation_not_exception url fa, ?_⟩
  intro d h
  obtain ⟨t', ht', hd⟩ := duration_of_result url fa d hframes h
  rw [ht] at ht'
  cases ht'
  have hzero : t.val = 0 → d.mDuration = F32.zero := by
    intro h0
    rw [hd, durationOf, h0]
    exact duration_zero
  refine ⟨⟨?_, ?_⟩, hzero⟩
  · intro hpos
    rcases Nat.eq_zero_or_pos t.val with h0 | h0
    · rw [hzero h0] at hpos
      cases hpos
    · exact h0
  · intro hpos
    rw [hd]
    exact duration_isPositive t.val hpos t.isLt

/-- One frame at 0 ms: a definition is returned, its duration is not positive and
is `0.0f`. -/
theorem duration_positive_iff_witness :
    1 ≤ zeroDuration.mNumberOfFrames.val ∧
    zeroDuration.mTime[zeroDuration.mNumberOfFrames.val - 1]? = some 0 ∧
    LoadFacialAnimation "face.json" false (some zeroDuration) = .ok zeroDurationResult ∧
    ((∀ message,
        LoadFacialAnimation "face.json" false (some zeroDuration) ≠
          .error (.exception message)) ∧
      ∀ d, LoadFacialAnimation "face.json" false (some zeroDuration) = .ok d →
        (d.mDuration.isPositive = true ↔ 0 < (0 : uint32_t).val) ∧
          ((0 : uint32_t).val = 0 → d.mDuration = F32.zero)) :=
  ⟨by decide, rfl, rfl,
    duration_positive_iff "face.json" zeroDuration 0 (by decide) rfl⟩

/-! ## Fields that are never read -/

/-- C9: two raw facial animations that agree on the name, the frame count, the
times and on the node name, morph-target count and keys of every blend shape are
loaded into the same result, whatever their `morphNames`, versions, full names and
shape counts: the loader never consults those fields. -/
theorem morphNames_not_consulted (url : String) (fa1 fa2 : FacialAnimation)
    (hname : fa1.mName = fa2.mName)
    (hframes : fa1.mNumberOfFrames = fa2.mNumberOfFrames) (htime : fa1.mTime = fa2.mTime)
    (hshapes : fa1.mBlendShapes.map BlendShape.used = fa2.mBlendShapes.map BlendShape.used) :
    LoadFacialAnimation url false (some fa1) = LoadFacialAnimation url false (some fa2) := by
  simp only [LoadFacialAnimation, flatten_congr fa1 fa2 hname hframes htime hshapes]

/-- Scenario A and its variant with other morph names, versions, full name and
shape count agree on the used fields, differ in the others, and are loaded into
the same definition. -/
theorem morphNames_not_consulted_witness :
    scenarioA.mName = scenarioARenamed.mName ∧
    scenarioA.mNumberOfFrames = scenarioARenamed.mNumberOfFrames ∧
    scenarioA.mTime = scenarioARenamed.mTime ∧
    scenarioA.mBlendShapes.map BlendShape.used =
      scenarioARenamed.mBlendShapes.map BlendShape.used ∧
    scenarioA.mBlendShapes.map (fun b => b.mMorphNames) ≠
      scenarioARenamed.mBlendShapes.map (fun b => b.mMorphNames) ∧
    LoadFacialAnimation "face.json" false (some scenarioA) =
      LoadFacialAnimation "face.json" false (some scenarioARenamed) :=
  ⟨rfl, rfl, rfl, rfl, by decide,
    morphNames_not_consulted "face.json" scenarioA scenarioARenamed rfl rfl rfl rfl⟩

/-! ## Accesses in bounds -/

/-- C10: when `1 ≤ frames ≤ len(time)`, every blend shape has a row of keys for
each of the `frames` frames with at least `morphTargetCount` entries, and the sum
of the morph-target counts is below `2 ^ 32`, every element access of
`LoadFacialAnimation` is inside its vector and the call returns a definition. -/
theorem returns_when_in_bounds (url : String) (fa : FacialAnimation)
    (hframes : 1 ≤ fa.mNumberOfFrames.val) (htime : fa.mNumberOfFrames.val ≤ fa.mTime.length)
    (hkeys : ∀ b, b ∈ fa.mBlendShapes →
      fa.mNumberOfFrames.val ≤ b.mKeys.length ∧
      ∀ f row, f < fa.mNumberOfFrames.val → b.mKeys[f]? = some row →
        b.mNumberOfMorphTarget.val ≤ row.length)
    (hsum : (fa.mBlendShapes.map (fun b => b.mNumberOfMorphTarget.val)).sum < 4294967296) :
    ∃ d, LoadFacialAnimation url false (some fa) = .ok d := by
  apply LoadFacialAnimation_returns url fa hframes htime _ hsum
  intro b hb f hf
  obtain ⟨hrows, hrow⟩ := hkeys b hb
  obtain ⟨row, hr⟩ := exists_getElem? b.mKeys f (by omega)
  exact ⟨row, hr, hrow f row hf hr⟩

/-- Scenario A satisfies the bounds (with room to spare in no direction) and is
loaded. -/
theorem returns_when_in_bounds_witness :
    1 ≤ scenarioA.mNumberOfFrames.val ∧
    scenarioA.mNumberOfFrames.val ≤ scenarioA.mTime.length ∧
    (∀ b, b ∈ scenarioA.mBlendShapes →
      scenarioA.mNumberOfFrames.val ≤ b.mKeys.length ∧
      ∀ f row, f < scenarioA.mNumberOfFrames.val → b.mKeys[f]? = some row →
        b.mNumberOfMorphTarget.val ≤ row.length) ∧
    (scenarioA.mBlendShapes.map (fun b => b.mNumberOfMorphTarget.val)).sum < 4294967296 ∧
    ∃ d, LoadFacialAnimation "face.json" false (some scenarioA) = .ok d :=
  have hkeys : ∀ b, b ∈ scenarioA.mBlendShapes →
      scenarioA.mNumberOfFrames.val ≤ b.mKeys.length ∧
      ∀ f row, f < scenarioA.mNumberOfFrames.val → b.mKeys[f]? = some row →
        b.mNumberOfMorphTarget.val ≤ row.length := by
    intro b hb
    simp only [scenarioA, List.mem_singleton] at hb
    subst hb
    refine ⟨by decide, ?_⟩
    intro f row hf hrow
    have hf2 : f < 2 := hf
    interval_cases f
    · simp [faceShape] at hrow
      subst hrow
      decide
    · simp [faceShape] at hrow
      subst hrow
      decide
  ⟨by decide, by decide, hkeys, by decide,
    returns_when_in_bounds "face.json" scenarioA (by decide) (by decide) hkeys (by decide)⟩

end dli
